import Mathlib

set_option maxHeartbeats 2000000
set_option maxRecDepth 16000

/-!
Verification development for the Image-Difference-Detector repository.

The development shallowly embeds the Difference Extraction and Annotation
Engine of the repository (function `extractJsonObject`, function
`createHighlightedImage` and function `compareImages` of the comparison
service module):

- JSON documents are modelled by the inductive type `Json`.  Numbers are
  modelled as integers: every numeric payload handled by the engine is an
  integral pixel quantity, and non-integral literals would drag in IEEE-754
  float formatting, which is outside this embedding.
- `JSON.stringify` of a document (compact form, as a JavaScript caller would
  produce for an object value) is `serializeJson`; `JSON.parse` is
  `parseJson`, a fuel-indexed recursive-descent parser over the JSON grammar.
- The regular expression used by `extractJsonObject`
  (backtick-fence, `json` tag, newline, an object literal whose first key is
  the requested name, lazily extended up to the first closing brace that is
  directly followed by a newline and a closing fence, case-insensitive) is
  embedded as the executable leftmost-match scanner `findFirstMatch`.
- Rendering state (canvas geometry, legend, per-difference rectangles and
  labels) is modelled by `RenderedOutput`; `createHighlightedImage` and
  `compareImages` mirror the source control flow, with the outcomes of the
  I/O actions (image decoding) passed in explicitly.  The catch-all handler
  of `createHighlightedImage` in the source turns any thrown error into a
  `null` result; the embedding mirrors this with explicit `Option` flow.
- Coordinates and scale factors are rationals.  In JavaScript a division by
  zero yields `Infinity` rather than the rational convention `x / 0 = 0`;
  no geometric theorem below evaluates scale factors at a zero claimed
  dimension except to observe that the code completes without signalling an
  error, which matches the JavaScript behaviour (non-finite geometry is
  silently ignored by the canvas, the file is still written).
-/

/-! ** JSON documents ** -/

inductive Json where
  | null : Json
  | bool (b : Bool) : Json
  | num (n : ℤ) : Json
  | str (s : List Char) : Json
  | arr (elems : List Json) : Json
  | obj (fields : List (List Char × Json)) : Json

/-! ** Serialization (JSON.stringify, compact form) ** -/

def digitChar (n : ℕ) : Char := Char.ofNat (48 + n)

/-- Decimal digits of `n`, least significant first; `fuel` bounds recursion
depth so that the definition is structural (hence kernel-reducible). -/
def natDigitsFuel : ℕ → ℕ → List Char
  | 0, _ => []
  | _ + 1, 0 => []
  | f + 1, n + 1 => digitChar ((n + 1) % 10) :: natDigitsFuel f ((n + 1) / 10)

def serializeNat (n : ℕ) : List Char :=
  if n = 0 then ['0'] else (natDigitsFuel n n).reverse

def serializeInt : ℤ → List Char
  | Int.ofNat n => serializeNat n
  | Int.negSucc n => '-' :: serializeNat (n + 1)

def hexDigitChar (n : ℕ) : Char :=
  if n < 10 then digitChar n else Char.ofNat (97 + (n - 10))

/-- Escaping of one character inside a JSON string literal, as
`JSON.stringify` performs it. -/
def escapeChar (c : Char) : List Char :=
  if c = '"' then ['\\', '"']
  else if c = '\\' then ['\\', '\\']
  else if c = '\n' then ['\\', 'n']
  else if c = '\r' then ['\\', 'r']
  else if c = '\t' then ['\\', 't']
  else if c = '\x08' then ['\\', 'b']
  else if c = '\x0c' then ['\\', 'f']
  else if c.toNat < 32 then
    "\\u00".data ++ [hexDigitChar (c.toNat / 16), hexDigitChar (c.toNat % 16)]
  else [c]

def escapeString : List Char → List Char
  | [] => []
  | c :: cs => escapeChar c ++ escapeString cs

mutual
def serializeJson : Json → List Char
  | .null => "null".data
  | .bool true => "true".data
  | .bool false => "false".data
  | .num n => serializeInt n
  | .str s => '"' :: (escapeString s ++ ['"'])
  | .arr xs => '[' :: (serializeItems xs ++ [']'])
  | .obj fs => '{' :: (serializeFields fs ++ ['}'])

def serializeItems : List Json → List Char
  | [] => []
  | [x] => serializeJson x
  | x :: y :: xs => serializeJson x ++ ',' :: serializeItems (y :: xs)

def serializeFields : List (List Char × Json) → List Char
  | [] => []
  | [(k, v)] => '"' :: (escapeString k ++ '"' :: ':' :: serializeJson v)
  | (k, v) :: f :: fs =>
      ('"' :: (escapeString k ++ '"' :: ':' :: serializeJson v)) ++
        ',' :: serializeFields (f :: fs)
end

/-! ** Parsing (JSON.parse) ** -/

def isJsonWs (c : Char) : Bool := c = ' ' || c = '\t' || c = '\n' || c = '\r'

def skipWs (s : List Char) : List Char := s.dropWhile isJsonWs

def isDigitChar (c : Char) : Bool := 48 ≤ c.toNat && c.toNat ≤ 57

def digitVal (c : Char) : ℕ := c.toNat - 48

def digitsToNat (ds : List Char) : ℕ := ds.foldl (fun a c => 10 * a + digitVal c) 0

/-- Strip an exact literal prefix. -/
def stripLit : List Char → List Char → Option (List Char)
  | [], s => some s
  | _ :: _, [] => none
  | l :: ls, c :: cs => if c = l then stripLit ls cs else none

/-- Parse an unsigned JSON integer (no leading zeros except "0" itself). -/
def parseNatPart (s : List Char) : Option (ℕ × List Char) :=
  let ds := s.takeWhile isDigitChar
  let r := s.dropWhile isDigitChar
  if ds = [] then none
  else if 1 < ds.length ∧ ds.head? = some '0' then none
  else some (digitsToNat ds, r)

/-- Parse a JSON number.  Fractional and exponent parts are outside the
model (the engine only ever handles integral pixel quantities). -/
def parseNumberBody (s : List Char) : Option (ℤ × List Char) :=
  match s with
  | [] => none
  | c :: rest =>
    if c = '-' then
      match parseNatPart rest with
      | some (n, r) => some (-(n : ℤ), r)
      | none => none
    else
      match parseNatPart (c :: rest) with
      | some (n, r) => some ((n : ℤ), r)
      | none => none

def hexVal (c : Char) : Option ℕ :=
  if 48 ≤ c.toNat ∧ c.toNat ≤ 57 then some (c.toNat - 48)
  else if 97 ≤ c.toNat ∧ c.toNat ≤ 102 then some (c.toNat - 87)
  else if 65 ≤ c.toNat ∧ c.toNat ≤ 70 then some (c.toNat - 55)
  else none

/-- Parse the body of a JSON string literal (after the opening quote),
returning the decoded characters and the remainder after the closing
quote.  Raw control characters are rejected, as `JSON.parse` rejects
them.  `\u` escapes that would denote surrogate halves are outside the
model. -/
def parseStringBody : List Char → Option (List Char × List Char)
  | [] => none
  | c :: rest =>
    if c = '"' then some ([], rest)
    else if c = '\\' then
      match rest with
      | [] => none
      | e :: r =>
        if e = '"' then (parseStringBody r).map (fun p => ('"' :: p.1, p.2))
        else if e = '\\' then (parseStringBody r).map (fun p => ('\\' :: p.1, p.2))
        else if e = '/' then (parseStringBody r).map (fun p => ('/' :: p.1, p.2))
        else if e = 'b' then (parseStringBody r).map (fun p => ('\x08' :: p.1, p.2))
        else if e = 'f' then (parseStringBody r).map (fun p => ('\x0c' :: p.1, p.2))
        else if e = 'n' then (parseStringBody r).map (fun p => ('\n' :: p.1, p.2))
        else if e = 'r' then (parseStringBody r).map (fun p => ('\r' :: p.1, p.2))
        else if e = 't' then (parseStringBody r).map (fun p => ('\t' :: p.1, p.2))
        else if e = 'u' then
          match r with
          | a :: b :: cc :: d :: r2 =>
            match hexVal a, hexVal b, hexVal cc, hexVal d with
            | some ha, some hb, some hc, some hd =>
              let code := 4096 * ha + 256 * hb + 16 * hc + hd
              if code < 55296 then
                (parseStringBody r2).map (fun p => (Char.ofNat code :: p.1, p.2))
              else none
            | _, _, _, _ => none
          | _ => none
        else none
    else if c.toNat < 32 then none
    else (parseStringBody rest).map (fun p => (c :: p.1, p.2))

mutual
def parseVal : ℕ → List Char → Option (Json × List Char)
  | 0, _ => none
  | fuel + 1, s0 =>
    let s := skipWs s0
    match stripLit ("null".data) s with
    | some r => some (.null, r)
    | none =>
    match stripLit ("true".data) s with
    | some r => some (.bool true, r)
    | none =>
    match stripLit ("false".data) s with
    | some r => some (.bool false, r)
    | none =>
    match s with
    | [] => none
    | c :: r =>
      if c = '"' then (parseStringBody r).map (fun p => (.str p.1, p.2))
      else if c = '[' then
        match skipWs r with
        | [] => none
        | c2 :: r2 =>
          if c2 = ']' then some (.arr [], r2)
          else (parseItems fuel (c2 :: r2)).map (fun p => (.arr p.1, p.2))
      else if c = '{' then
        match skipWs r with
        | [] => none
        | c2 :: r2 =>
          if c2 = '}' then some (.obj [], r2)
          else (parseFields fuel (c2 :: r2)).map (fun p => (.obj p.1, p.2))
      else (parseNumberBody (c :: r)).map (fun p => (.num p.1, p.2))

def parseItems : ℕ → List Char → Option (List Json × List Char)
  | 0, _ => none
  | fuel + 1, s =>
    match parseVal fuel s with
    | none => none
    | some (v, r) =>
      match skipWs r with
      | [] => none
      | c :: r2 =>
        if c = ',' then (parseItems fuel r2).map (fun p => (v :: p.1, p.2))
        else if c = ']' then some ([v], r2)
        else none

def parseFields : ℕ → List Char → Option (List (List Char × Json) × List Char)
  | 0, _ => none
  | fuel + 1, s =>
    match skipWs s with
    | [] => none
    | c :: r =>
      if c = '"' then
        match parseStringBody r with
        | none => none
        | some (k, r2) =>
          match skipWs r2 with
          | [] => none
          | c3 :: r3 =>
            if c3 = ':' then
              match parseVal fuel r3 with
              | none => none
              | some (v, r4) =>
                match skipWs r4 with
                | [] => none
                | c5 :: r5 =>
                  if c5 = ',' then
                    (parseFields fuel r5).map (fun p => ((k, v) :: p.1, p.2))
                  else if c5 = '}' then some ([(k, v)], r5)
                  else none
            else none
      else none
end

/-- Model of `JSON.parse` of a whole string: one value, possibly
surrounded by whitespace, nothing else. -/
def parseJson (s : List Char) : Option Json :=
  match parseVal (s.length + 1) s with
  | some (v, r) => if skipWs r = [] then some v else none
  | none => none

/-- A list that does not begin with a decimal digit (the separator shapes
that follow a serialized value). -/
def noDigitHead (r : List Char) : Prop :=
  ∀ c, r.head? = some c → isDigitChar c = false

/- Node-count measure of a document, dominating the parser fuel it
needs. -/
mutual
def jsize : Json → ℕ
  | .null => 1
  | .bool _ => 1
  | .num _ => 1
  | .str _ => 1
  | .arr xs => 1 + isize xs
  | .obj fs => 1 + fsize fs

def isize : List Json → ℕ
  | [] => 0
  | x :: xs => 1 + jsize x + isize xs

def fsize : List (List Char × Json) → ℕ
  | [] => 0
  | kv :: fs => 1 + jsize kv.2 + fsize fs
end

/-! ** The extraction pattern of `extractJsonObject` **

The source builds, for a requested object name, the case-insensitive
regular expression

  (fence)json(newline) ( (open brace) (whitespace)* (quote)name(quote)
      (lazy any)* (close brace) ) (newline)(fence)

and takes the first match of it in the response text; the parenthesised
group is handed to `JSON.parse`.  The scanner below implements exactly the
leftmost-then-lazy match of this fixed pattern. -/

def fenceOpen : List Char := "```json\n".data

def closeAfterBrace : List Char := "\n```".data

/-- Case-insensitive literal strip (the regex carries the `i` flag). -/
def stripCI : List Char → List Char → Option (List Char)
  | [], s => some s
  | _ :: _, [] => none
  | l :: ls, c :: cs => if c.toLower = l.toLower then stripCI ls cs else none

/-- The JavaScript whitespace class (ASCII members; the engine's payloads
are ASCII). -/
def isJsSpaceChar (c : Char) : Bool :=
  c = ' ' || c = '\t' || c = '\n' || c = '\r' || c = '\x0b' || c = '\x0c'

/-- The lazy part of the pattern: consume as little as possible until a
closing brace directly followed by a newline and a closing fence.  Returns
the consumed characters (closing brace included) and the remainder. -/
def lazyClose : List Char → Option (List Char × List Char)
  | [] => none
  | c :: cs =>
    if c = '}' ∧ (stripLit closeAfterBrace cs).isSome then some ([c], cs)
    else (lazyClose cs).map (fun p => (c :: p.1, p.2))

/-- Try to match the whole pattern at the current position; on success
return the captured group (the object-literal span). -/
def matchGroupAt (name s : List Char) : Option (List Char) :=
  match stripCI fenceOpen s with
  | none => none
  | some b0 =>
    match b0 with
    | [] => none
    | c :: b1 =>
      if c = '{' then
        let ws := b1.takeWhile isJsSpaceChar
        let b2 := b1.dropWhile isJsSpaceChar
        match stripCI ('"' :: (name ++ ['"'])) b2 with
        | none => none
        | some b3 =>
          match lazyClose b3 with
          | none => none
          | some (g, _) => some ('{' :: (ws ++ (b2.take (name.length + 2) ++ g)))
      else none

/-- Leftmost match: try every start position from the left. -/
def findFirstMatch : List Char → List Char → Option (List Char)
  | name, [] => matchGroupAt name []
  | name, c :: rest =>
    match matchGroupAt name (c :: rest) with
    | some g => some g
    | none => findFirstMatch name rest

/-- Does a json fence opener occur anywhere in the text (case-insensitive)?
Prose free of fence openers can never capture a leftmost match. -/
def hasJsonFence : List Char → Bool
  | [] => false
  | c :: rest => (stripCI fenceOpen (c :: rest)).isSome || hasJsonFence rest

/-! ** extractJsonObject ** -/

/-- The two failure modes of `extractJsonObject`: the pattern does not
match anywhere (the source throws "Could not find (name) JSON block in the
response"), or the captured span fails `JSON.parse`.  In both cases the
source's catch block logs the object name and the raw response text and
rethrows, so the failure value carries both. -/
inductive ExtractKind where
  | notFound : ExtractKind
  | parseFailure : ExtractKind

structure ExtractFailure where
  objectName : String
  rawContent : String
  kind : ExtractKind

def extractJsonObject (jsonString objectName : String) : Except ExtractFailure Json :=
  match findFirstMatch objectName.data jsonString.data with
  | none => .error ⟨objectName, jsonString, .notFound⟩
  | some g =>
    match parseJson g with
    | some v => .ok v
    | none => .error ⟨objectName, jsonString, .parseFailure⟩

/-! ** Data model of the annotation engine ** -/

/-- True decoded pixel dimensions of the target raster. -/
structure ImageDims where
  width : ℚ
  height : ℚ

/-- Dimensions the inference service claims to have processed (for one
image). -/
structure ProcessedDims where
  width : ℚ
  height : ℚ

/-- A bounding box as returned by the service. -/
structure HighlightArea where
  x1 : ℚ
  y1 : ℚ
  x2 : ℚ
  y2 : ℚ

/-- One unvalidated difference record. -/
structure RawDifference where
  type : String
  location : String
  description : String
  coordinates : Option HighlightArea
  highlight_area : Option HighlightArea
  before : Option String
  after : Option String

structure ColorScheme where
  stroke : String
  fill : String

/-- The fixed palette of `createHighlightedImage`; unrecognized types fall
back to the default (red) entry. -/
def colorSchemes (t : String) : ColorScheme :=
  if t = "text_change" then ⟨"rgba(255, 0, 0, 0.8)", "rgba(255, 0, 0, 0.3)"⟩
  else if t = "layout_change" then ⟨"rgba(0, 0, 255, 0.8)", "rgba(0, 0, 255, 0.3)"⟩
  else if t = "element_added" then ⟨"rgba(0, 128, 0, 0.8)", "rgba(0, 128, 0, 0.3)"⟩
  else if t = "element_removed" then ⟨"rgba(255, 165, 0, 0.8)", "rgba(255, 165, 0, 0.3)"⟩
  else if t = "style_change" then ⟨"rgba(128, 0, 128, 0.8)", "rgba(128, 0, 128, 0.3)"⟩
  else ⟨"rgba(255, 0, 0, 0.8)", "rgba(255, 0, 0, 0.3)"⟩

/-- Everything the drawing loop emits for one renderable difference:
the scaled rectangle, the stroke and fill colors and the numeric label. -/
structure RenderedBox where
  label : ℕ
  x1 : ℚ
  y1 : ℚ
  x2 : ℚ
  y2 : ℚ
  boxWidth : ℚ
  boxHeight : ℚ
  stroke : String
  fill : String
  labelText : String
  labelX : ℚ
  labelY : ℚ

/-- The body of one iteration of the `forEach` drawing loop (source lines
258-287), for a record that has a `highlight_area`. -/
def mkRenderedBox (image : ImageDims) (scaleX scaleY : ℚ) (index : ℕ)
    (d : RawDifference) (ha : HighlightArea) : RenderedBox :=
  let scaledX1 := max 0 (ha.x1 * scaleX)
  let scaledY1 := max 0 (ha.y1 * scaleY)
  let scaledX2 := min image.width (ha.x2 * scaleX)
  let scaledY2 := min image.height (ha.y2 * scaleY)
  { label := index + 1
    x1 := scaledX1, y1 := scaledY1, x2 := scaledX2, y2 := scaledY2
    boxWidth := scaledX2 - scaledX1, boxHeight := scaledY2 - scaledY1
    stroke := (colorSchemes d.type).stroke
    fill := (colorSchemes d.type).fill
    labelText := toString (index + 1)
    labelX := scaledX1 + 5, labelY := scaledY1 + 15 }

/-- The `forEach` loop over `differences.differences`: records without a
`highlight_area` are passed over, everything else appends its drawing in
input order, labelled by the 1-based position in the full input list. -/
def renderBoxes (image : ImageDims) (scaleX scaleY : ℚ)
    (diffs : List RawDifference) : List RenderedBox :=
  diffs.enum.foldl
    (fun acc p =>
      match p.2.highlight_area with
      | some ha => acc ++ [mkRenderedBox image scaleX scaleY p.1 p.2 ha]
      | none => acc)
    []

/-- The expanded canvas built by `createHighlightedImage`: the source
raster copied on top, a 40-pixel legend band below with the count text at
a fixed margin, and the rendered boxes. -/
structure RenderedOutput where
  width : ℚ
  height : ℚ
  legendText : String
  legendX : ℚ
  legendY : ℚ
  boxes : List RenderedBox

def renderOutput (image : ImageDims) (pd : ProcessedDims)
    (diffs : List RawDifference) : RenderedOutput :=
  let scaleX := image.width / pd.width
  let scaleY := image.height / pd.height
  let legendHeight : ℚ := 40
  let legendSpacing : ℚ := 20
  { width := image.width
    height := image.height + legendHeight
    legendText := toString diffs.length ++ " UI differences detected"
    legendX := legendSpacing
    legendY := image.height + 25
    boxes := renderBoxes image scaleX scaleY diffs }

/-- Model of `new Date().toISOString().replace(/[:.]/g, '-')`. -/
def sanitizeTimestamp (s : String) : String :=
  String.mk (s.data.map (fun c => if c = ':' ∨ c = '.' then '-' else c))

/-- Model of `path.basename(imagePath, path.extname(imagePath))`. -/
def baseFilename (p : String) : String :=
  let afterDir := (p.data.foldl (fun acc c => if c = '/' then [] else acc ++ [c]) [])
  let ext := (afterDir.foldl (fun acc c => if c = '.' then [c] else
      match acc with
      | [] => []
      | _ => acc ++ [c]) [])
  String.mk (afterDir.take (afterDir.length - ext.length))

/-- Outcome of one `createHighlightedImage` call: the returned value
(a path, or `null`), the files written, and the expanded canvas if the
drawing phase ran.  The source wraps everything after the empty-list
guard in one try/catch whose handler returns `null`, so a failed image
decode produces a normal `none` result and nothing is written. -/
structure RenderResult where
  outputPath : Option String
  writes : List String
  rendered : Option RenderedOutput

/-- Model of `createHighlightedImage(imagePath, differences, processedDims)`.
`differences` is `none` when the caller passed `null`/an object without a
`differences` array (the first guard), `loadResult` is the outcome of
`loadImage`, and `processedDims` is `none` when the dims argument was
`undefined` (reading `.width` on it throws inside the try, which the
catch turns into `null`). -/
def createHighlightedImage (imagePath : String)
    (differences : Option (List RawDifference))
    (processedDims : Option ProcessedDims)
    (loadResult : Except String ImageDims)
    (timestamp : String) : RenderResult :=
  match differences with
  | none => { outputPath := none, writes := [], rendered := none }
  | some diffs =>
    if diffs.length = 0 then { outputPath := none, writes := [], rendered := none }
    else
      match loadResult with
      | .error _ => { outputPath := none, writes := [], rendered := none }
      | .ok image =>
        match processedDims with
        | none => { outputPath := none, writes := [], rendered := none }
        | some pd =>
          let out := renderOutput image pd diffs
          let outputFilename :=
            "diff_" ++ baseFilename imagePath ++ "_" ++ sanitizeTimestamp timestamp ++ ".png"
          let outputPath := "output/" ++ outputFilename
          { outputPath := some outputPath
            writes := [outputPath]
            rendered := some out }

/-! ** JSON access and decoding into the typed records **

`compareImages` works on the dynamically-typed values returned by
`JSON.parse`; the accesses below mirror the property reads the source
performs.  (Duplicate keys inside one object literal never arise in the
payloads the engine consumes and are outside the model.) -/

def lookupField : List (List Char × Json) → List Char → Option Json
  | [], _ => none
  | (k, v) :: fs, key => if k = key then some v else lookupField fs key

def getField (j : Json) (key : String) : Option Json :=
  match j with
  | .obj fs => lookupField fs key.data
  | _ => none

def jsonNum : Json → Option ℤ
  | .num n => some n
  | _ => none

def jsonStr : Json → Option String
  | .str s => some (String.mk s)
  | _ => none

def decodeProcessedDims (j : Json) : Option ProcessedDims :=
  match (getField j "width").bind jsonNum, (getField j "height").bind jsonNum with
  | some w, some h => some ⟨(w : ℚ), (h : ℚ)⟩
  | _, _ => none

def decodeArea (j : Json) : Option HighlightArea :=
  match (getField j "x1").bind jsonNum, (getField j "y1").bind jsonNum,
      (getField j "x2").bind jsonNum, (getField j "y2").bind jsonNum with
  | some a, some b, some c, some d => some ⟨(a : ℚ), (b : ℚ), (c : ℚ), (d : ℚ)⟩
  | _, _, _, _ => none

/-- Lenient per-record decoding: a record is whatever object the service
returned; missing or non-string text fields read as empty/absent, and a
record without a usable `highlight_area` simply carries `none` there
(the drawing loop skips it). -/
def decodeRawDifference (j : Json) : RawDifference :=
  { type := ((getField j "type").bind jsonStr).getD ""
    location := ((getField j "location").bind jsonStr).getD ""
    description := ((getField j "description").bind jsonStr).getD ""
    coordinates := (getField j "coordinates").bind decodeArea
    highlight_area := (getField j "highlight_area").bind decodeArea
    before := (getField j "before").bind jsonStr
    after := (getField j "after").bind jsonStr }

/-- Reads `differences.differences` as the list the source iterates over; `none`
when the extracted object has no `differences` array (in which case the
source's `.length` read on line 178 throws a TypeError that propagates out
of `compareImages`). -/
def decodeDifferencesDoc (j : Json) : Option (List RawDifference) :=
  match getField j "differences" with
  | some (.arr xs) => some (xs.map decodeRawDifference)
  | _ => none

/-! ** compareImages ** -/

/-- The final aggregate the source returns on success (the fields the
engine's collaborators consume). -/
structure ComparisonResult where
  analysis : String
  highlightedImagePath : Option String
  timestamp : String

inductive CompareErr where
  | accessErr (path : String) : CompareErr
  | extractErr (f : ExtractFailure) : CompareErr
  | typeErr (msg : String) : CompareErr

structure CompareOutcome where
  result : Except CompareErr ComparisonResult
  writes : List String

/-- Inputs of one `compareImages` run that come from the outside world:
whether the two input paths are accessible, the text the inference service
returned, the outcome of decoding the second image, and the wall-clock
timestamp used for the output filename. -/
structure CompareEnv where
  image1Path : String
  image2Path : String
  access1 : Bool
  access2 : Bool
  responseContent : String
  loadResult : Except String ImageDims
  timestamp : String

/-- Model of `compareImages(image1Path, image2Path)`: validate access, call the
service (its response text is `env.responseContent`), extract the two JSON
payloads, then hand the parsed difference list and the claimed dimensions
of image 2 to `createHighlightedImage`.  Every thrown error propagates to
the caller except those raised inside `createHighlightedImage`'s own
try/catch. -/
def compareImages (env : CompareEnv) : CompareOutcome :=
  if env.access1 = false then
    { result := .error (.accessErr env.image1Path), writes := [] }
  else if env.access2 = false then
    { result := .error (.accessErr env.image2Path), writes := [] }
  else
    match extractJsonObject env.responseContent "processed_dimensions" with
    | .error f => { result := .error (.extractErr f), writes := [] }
    | .ok pdJson =>
      match extractJsonObject env.responseContent "differences" with
      | .error f => { result := .error (.extractErr f), writes := [] }
      | .ok dJson =>
        match decodeDifferencesDoc dJson with
        | none =>
          { result := .error (.typeErr "Cannot read properties of undefined"), writes := [] }
        | some diffs =>
          match getField pdJson "processed_dimensions" with
          | none =>
            { result := .error (.typeErr "Cannot read properties of undefined"), writes := [] }
          | some inner =>
            let pd2 := (getField inner "image2").bind decodeProcessedDims
            let r := createHighlightedImage env.image2Path (some diffs) pd2
                env.loadResult env.timestamp
            { result := .ok
                { analysis := env.responseContent
                  highlightedImagePath := r.outputPath
                  timestamp := env.timestamp }
              writes := r.writes }

/-- Concrete difference records used in the closed instances below. -/
def sampleDiff (t : String) (ha : Option HighlightArea) : RawDifference :=
  { type := t, location := "header", description := "sample"
    coordinates := none, highlight_area := ha, before := none, after := none }

/-- A concrete response text holding a well-formed `processed_dimensions`
block (claimed 400 x 300 for both images). -/
def pdBlockContent : String :=
  "```json\n\x7b\"processed_dimensions\": \x7b\"image1\": \x7b\"width\": 400, \"height\": 300\x7d, \"image2\": \x7b\"width\": 400, \"height\": 300\x7d\x7d\x7d\n```"

/-- A concrete `differences` block with an empty list. -/
def diffsEmptyContent : String := "```json\n\x7b\"differences\": []\x7d\n```"

/-- A concrete `differences` block with one renderable record. -/
def diffsOneContent : String :=
  "```json\n\x7b\"differences\": [\x7b\"type\": \"text_change\", \"highlight_area\": \x7b\"x1\": 50, \"y1\": 50, \"x2\": 150, \"y2\": 100\x7d\x7d]\x7d\n```"

/-- An environment for a `compareImages` run over the given response text
and image-decode outcome. -/
def mkEnv (content : String) (load : Except String ImageDims) : CompareEnv :=
  { image1Path := "uploads/a.png", image2Path := "uploads/b.png"
    access1 := true, access2 := true
    responseContent := content, loadResult := load
    timestamp := "2026-10-11T12:00:00.000Z" }

/-- A run whose service response reports zero differences. -/
def emptyDiffEnv : CompareEnv :=
  mkEnv ("Dims first.\n" ++ pdBlockContent ++ "\nThen differences.\n" ++ diffsEmptyContent)
    (.ok ⟨800, 600⟩)

/-- A run with one reported difference whose target image fails to decode. -/
def loadFailEnv : CompareEnv :=
  mkEnv ("Dims first.\n" ++ pdBlockContent ++ "\nThen differences.\n" ++ diffsOneContent)
    (.error "Unsupported image type")

/-- The parsed value of the `processed_dimensions` block of
`pdBlockContent`. -/
def pdInnerSample : Json :=
  Json.obj
    [("image1".data, Json.obj [("width".data, Json.num 400), ("height".data, Json.num 300)]),
     ("image2".data, Json.obj [("width".data, Json.num 400), ("height".data, Json.num 300)])]

def pdJsonSample : Json := Json.obj [("processed_dimensions".data, pdInnerSample)]

def dJsonEmptySample : Json := Json.obj [("differences".data, Json.arr [])]

/-- A response that carries no fenced payload at all. -/
def noBlockContent : String :=
  "The model replied with prose only; no fenced payload anywhere."

def noBlockEnv : CompareEnv := mkEnv noBlockContent (.ok ⟨800, 600⟩)

/-- A response whose `differences` block matches the pattern but whose
captured span is not valid JSON. -/
def badDiffContent : String := "```json\n\x7b\"differences\": oops\x7d\n```"

/-- Adversarial prose for the extraction round-trip: a fence opener with
an object header but no closing fence, ahead of the genuine block. -/
def c4Pre : String := "```json\n\x7b\"differences\": oops\n"

/-! ** Structure of the drawing loop ** -/

/-- The imperative `forEach` accumulation is the `filterMap` over the
enumerated input: skipped records contribute nothing, everything else
contributes its box in input order. -/
theorem renderBoxes_eq_filterMap (image : ImageDims) (sX sY : ℚ)
    (diffs : List RawDifference) :
    renderBoxes image sX sY diffs =
      diffs.enum.filterMap
        (fun p => p.2.highlight_area.map (mkRenderedBox image sX sY p.1 p.2)) := by
  have gen : ∀ (l : List (ℕ × RawDifference)) (acc : List RenderedBox),
      l.foldl (fun acc p =>
        match p.2.highlight_area with
        | some ha => acc ++ [mkRenderedBox image sX sY p.1 p.2 ha]
        | none => acc) acc
      = acc ++ l.filterMap
          (fun p => p.2.highlight_area.map (mkRenderedBox image sX sY p.1 p.2)) := by
    intro l
    induction l with
    | nil => intro acc; simp
    | cons p l ih =>
      intro acc
      cases h : p.2.highlight_area with
      | none => simp [List.foldl_cons, h, ih, List.filterMap_cons, Option.map_none]
      | some ha => simp [List.foldl_cons, h, ih, List.filterMap_cons, Option.map_some]
  simpa [renderBoxes] using gen diffs.enum []

theorem mem_boxes_of_getElem (image : ImageDims) (pd : ProcessedDims)
    (diffs : List RawDifference) (i : ℕ) (d : RawDifference) (ha : HighlightArea)
    (hget : diffs[i]? = some d) (hha : d.highlight_area = some ha) :
    mkRenderedBox image (image.width / pd.width) (image.height / pd.height) i d ha ∈
      (renderOutput image pd diffs).boxes := by
  have hmem : (i, d) ∈ diffs.enum := List.mk_mem_enum_iff_getElem?.mpr hget
  have : (renderOutput image pd diffs).boxes =
      diffs.enum.filterMap
        (fun p => p.2.highlight_area.map
          (mkRenderedBox image (image.width / pd.width) (image.height / pd.height) p.1 p.2)) := by
    simp [renderOutput, renderBoxes_eq_filterMap]
  rw [this]
  exact List.mem_filterMap.mpr ⟨(i, d), hmem, by simp [hha]⟩

/-! ** Claim C1 ** -/

/-- Claim C1: for every RawDifference with a highlight area, the drawing
pass computes the scale factors as trueWidth/claimedWidth and
trueHeight/claimedHeight and emits a box whose corners are
max(0, x1*scaleX), max(0, y1*scaleY), min(trueWidth, x2*scaleX),
min(trueHeight, y2*scaleY), labelled by its position.  (The positivity
hypotheses restrict the statement to claimed dimensions where rational
division agrees with the JavaScript division the source performs.) -/
theorem C1_scale_factors_and_transform (image : ImageDims) (pd : ProcessedDims)
    (diffs : List RawDifference) (i : ℕ) (d : RawDifference) (ha : HighlightArea)
    (hget : diffs[i]? = some d) (hha : d.highlight_area = some ha)
    (_hw : 0 < pd.width) (_hh : 0 < pd.height) :
    ∃ b ∈ (renderOutput image pd diffs).boxes,
      b.label = i + 1 ∧
      b.x1 = max 0 (ha.x1 * (image.width / pd.width)) ∧
      b.y1 = max 0 (ha.y1 * (image.height / pd.height)) ∧
      b.x2 = min image.width (ha.x2 * (image.width / pd.width)) ∧
      b.y2 = min image.height (ha.y2 * (image.height / pd.height)) := by
  refine ⟨mkRenderedBox image (image.width / pd.width) (image.height / pd.height) i d ha,
    mem_boxes_of_getElem image pd diffs i d ha hget hha, ?_, rfl, rfl, rfl, rfl⟩
  rfl

/-- Witness for C1, at the specification's own scenario: true raster
800 x 600, claimed 400 x 300, highlight area (50,50)-(150,100). -/
theorem C1_scale_factors_and_transform_witness :
    ([sampleDiff "text_change" (some ⟨50, 50, 150, 100⟩)])[0]? =
      some (sampleDiff "text_change" (some ⟨50, 50, 150, 100⟩)) ∧
    (sampleDiff "text_change" (some ⟨50, 50, 150, 100⟩)).highlight_area =
      some ⟨50, 50, 150, 100⟩ ∧
    (0 : ℚ) < 400 ∧ (0 : ℚ) < 300 ∧
    ∃ b ∈ (renderOutput ⟨800, 600⟩ ⟨400, 300⟩
        [sampleDiff "text_change" (some ⟨50, 50, 150, 100⟩)]).boxes,
      b.label = 0 + 1 ∧
      b.x1 = max 0 ((50 : ℚ) * ((800 : ℚ) / 400)) ∧
      b.y1 = max 0 ((50 : ℚ) * ((600 : ℚ) / 300)) ∧
      b.x2 = min (800 : ℚ) ((150 : ℚ) * ((800 : ℚ) / 400)) ∧
      b.y2 = min (600 : ℚ) ((100 : ℚ) * ((600 : ℚ) / 300)) :=
  ⟨rfl, rfl, by decide, by decide,
    C1_scale_factors_and_transform ⟨800, 600⟩ ⟨400, 300⟩ _ 0 _ ⟨50, 50, 150, 100⟩
      rfl rfl (by decide) (by decide)⟩

/-! ** Claim C2 ** -/

/-- Claim C2 is false as stated: the per-record transform clamps
`scaledX1`/`scaledY1` only from below and `scaledX2`/`scaledY2` only from
above.  At true dimensions 100 x 100, claimed dimensions 100 x 100 (scale
factors 1) and a highlight area (200,10)-(300,20) lying right of the
frame, the emitted box has `scaledX1 = 200 > 100 = trueWidth` and
`scaledX1 > scaledX2 = 100`: the coordinates are neither ordered nor all
inside `[0, trueWidth] x [0, trueHeight]`. -/
theorem C2_counterexample_out_of_frame :
    ¬ (∀ b ∈ (renderOutput ⟨100, 100⟩ ⟨100, 100⟩
          [sampleDiff "text_change" (some ⟨200, 10, 300, 20⟩)]).boxes,
        (b.x1 ≤ b.x2 ∧ b.y1 ≤ b.y2) ∧
        (0 ≤ b.x1 ∧ b.x1 ≤ 100) ∧ (0 ≤ b.x2 ∧ b.x2 ≤ 100) ∧
        (0 ≤ b.y1 ∧ b.y1 ≤ 100) ∧ (0 ≤ b.y2 ∧ b.y2 ≤ 100)) := by
  intro h
  have hb := h _ (mem_boxes_of_getElem ⟨100, 100⟩ ⟨100, 100⟩ _ 0 _ ⟨200, 10, 300, 20⟩ rfl rfl)
  obtain ⟨-, ⟨-, hx1le⟩, -⟩ := hb
  simp only [mkRenderedBox] at hx1le
  norm_num [max_le_iff] at hx1le

/-- Corrected form of C2.  Unconditionally, every emitted box satisfies
the one-sided clamps `0 ≤ scaledX1`, `0 ≤ scaledY1`,
`scaledX2 ≤ trueWidth`, `scaledY2 ≤ trueHeight`; and whenever the input
highlight area is ordered and lies inside the claimed frame, the scaled
box is ordered and all four coordinates lie inside
`[0, trueWidth] x [0, trueHeight]`. -/
theorem C2_amended_one_sided_clamps_and_in_frame_boxes :
    (∀ (image : ImageDims) (pd : ProcessedDims) (diffs : List RawDifference),
      ∀ b ∈ (renderOutput image pd diffs).boxes,
        0 ≤ b.x1 ∧ 0 ≤ b.y1 ∧ b.x2 ≤ image.width ∧ b.y2 ≤ image.height) ∧
    (∀ (image : ImageDims) (pd : ProcessedDims) (diffs : List RawDifference)
        (i : ℕ) (d : RawDifference) (ha : HighlightArea),
      diffs[i]? = some d → d.highlight_area = some ha →
      0 < pd.width → 0 < pd.height → 0 ≤ image.width → 0 ≤ image.height →
      0 ≤ ha.x1 → ha.x1 ≤ ha.x2 → ha.x2 ≤ pd.width →
      0 ≤ ha.y1 → ha.y1 ≤ ha.y2 → ha.y2 ≤ pd.height →
      ∃ b ∈ (renderOutput image pd diffs).boxes,
        b.label = i + 1 ∧
        b.x1 ≤ b.x2 ∧ b.y1 ≤ b.y2 ∧
        0 ≤ b.x1 ∧ b.x1 ≤ image.width ∧ 0 ≤ b.x2 ∧ b.x2 ≤ image.width ∧
        0 ≤ b.y1 ∧ b.y1 ≤ image.height ∧ 0 ≤ b.y2 ∧ b.y2 ≤ image.height) := by
  constructor
  · intro image pd diffs b hb
    simp only [renderOutput, renderBoxes_eq_filterMap, List.mem_filterMap] at hb
    obtain ⟨p, -, hp⟩ := hb
    obtain ⟨ha, -, rfl⟩ := Option.map_eq_some'.mp hp
    refine ⟨le_max_left 0 _, le_max_left 0 _, min_le_left _ _, min_le_left _ _⟩
  · intro image pd diffs i d ha hget hha hpw hph hW hH hx1 hx12 hx2 hy1 hy12 hy2
    have hsX : (0 : ℚ) ≤ image.width / pd.width := div_nonneg hW (le_of_lt hpw)
    have hsY : (0 : ℚ) ≤ image.height / pd.height := div_nonneg hH (le_of_lt hph)
    have hx1W : ha.x1 * (image.width / pd.width) ≤ image.width := by
      calc ha.x1 * (image.width / pd.width)
          ≤ pd.width * (image.width / pd.width) :=
            mul_le_mul_of_nonneg_right (le_trans hx12 hx2) hsX
        _ = image.width := by
            rw [mul_comm]; exact div_mul_cancel₀ _ (ne_of_gt hpw)
    have hx2W : ha.x2 * (image.width / pd.width) ≤ image.width := by
      calc ha.x2 * (image.width / pd.width)
          ≤ pd.width * (image.width / pd.width) :=
            mul_le_mul_of_nonneg_right hx2 hsX
        _ = image.width := by
            rw [mul_comm]; exact div_mul_cancel₀ _ (ne_of_gt hpw)
    have hy1H : ha.y1 * (image.height / pd.height) ≤ image.height := by
      calc ha.y1 * (image.height / pd.height)
          ≤ pd.height * (image.height / pd.height) :=
            mul_le_mul_of_nonneg_right (le_trans hy12 hy2) hsY
        _ = image.height := by
            rw [mul_comm]; exact div_mul_cancel₀ _ (ne_of_gt hph)
    have hy2H : ha.y2 * (image.height / pd.height) ≤ image.height := by
      calc ha.y2 * (image.height / pd.height)
          ≤ pd.height * (image.height / pd.height) :=
            mul_le_mul_of_nonneg_right hy2 hsY
        _ = image.height := by
            rw [mul_comm]; exact div_mul_cancel₀ _ (ne_of_gt hph)
    have hx1n : (0 : ℚ) ≤ ha.x1 * (image.width / pd.width) := mul_nonneg hx1 hsX
    have hx2n : (0 : ℚ) ≤ ha.x2 * (image.width / pd.width) :=
      mul_nonneg (le_trans hx1 hx12) hsX
    have hy1n : (0 : ℚ) ≤ ha.y1 * (image.height / pd.height) := mul_nonneg hy1 hsY
    have hy2n : (0 : ℚ) ≤ ha.y2 * (image.height / pd.height) :=
      mul_nonneg (le_trans hy1 hy12) hsY
    refine ⟨mkRenderedBox image (image.width / pd.width) (image.height / pd.height) i d ha,
      mem_boxes_of_getElem image pd diffs i d ha hget hha, rfl, ?_, ?_, ?_, ?_, ?_, ?_, ?_, ?_, ?_, ?_⟩
    · exact max_le (le_min hW hx2n)
        (le_min hx1W (mul_le_mul_of_nonneg_right hx12 hsX))
    · exact max_le (le_min hH hy2n)
        (le_min hy1H (mul_le_mul_of_nonneg_right hy12 hsY))
    · exact le_max_left 0 _
    · exact max_le hW hx1W
    · exact le_min hW hx2n
    · exact min_le_left _ _
    · exact le_max_left 0 _
    · exact max_le hH hy1H
    · exact le_min hH hy2n
    · exact min_le_left _ _

/-- Witness for the corrected C2, at the specification scenario input. -/
theorem C2_amended_one_sided_clamps_and_in_frame_boxes_witness :
    ([sampleDiff "text_change" (some ⟨50, 50, 150, 100⟩)])[0]? =
      some (sampleDiff "text_change" (some ⟨50, 50, 150, 100⟩)) ∧
    (0 : ℚ) < 400 ∧ (0 : ℚ) < 300 ∧ (0 : ℚ) ≤ 800 ∧ (0 : ℚ) ≤ 600 ∧
    (0 : ℚ) ≤ 50 ∧ (50 : ℚ) ≤ 150 ∧ (150 : ℚ) ≤ 400 ∧
    (0 : ℚ) ≤ 50 ∧ (50 : ℚ) ≤ 100 ∧ (100 : ℚ) ≤ 300 ∧
    ∃ b ∈ (renderOutput ⟨800, 600⟩ ⟨400, 300⟩
        [sampleDiff "text_change" (some ⟨50, 50, 150, 100⟩)]).boxes,
      b.label = 0 + 1 ∧
      b.x1 ≤ b.x2 ∧ b.y1 ≤ b.y2 ∧
      0 ≤ b.x1 ∧ b.x1 ≤ (800 : ℚ) ∧ 0 ≤ b.x2 ∧ b.x2 ≤ (800 : ℚ) ∧
      0 ≤ b.y1 ∧ b.y1 ≤ (600 : ℚ) ∧ 0 ≤ b.y2 ∧ b.y2 ≤ (600 : ℚ) :=
  ⟨rfl, by decide, by decide, by decide, by decide, by decide, by decide, by decide,
    by decide, by decide, by decide,
    C2_amended_one_sided_clamps_and_in_frame_boxes.2 ⟨800, 600⟩ ⟨400, 300⟩ _ 0 _
      ⟨50, 50, 150, 100⟩ rfl rfl (by decide) (by decide) (by decide) (by decide)
      (by decide) (by decide) (by decide) (by decide) (by decide) (by decide)⟩

/-! ** Claim C10 ** -/

/-- Claim C10 is false as stated: even with equal claimed and true
dimensions (scale factors 1), the clamps still apply.  At dimensions
100 x 100 on both sides and highlight area (-5,10)-(50,60), the emitted
box has `scaledX1 = max(0, -5) = 0`, not the input coordinate `-5`. -/
theorem C10_counterexample_clamped_at_equal_dims :
    ¬ (∀ b ∈ (renderOutput ⟨100, 100⟩ ⟨100, 100⟩
          [sampleDiff "text_change" (some ⟨-5, 10, 50, 60⟩)]).boxes,
        b.x1 = -5 ∧ b.y1 = 10 ∧ b.x2 = 50 ∧ b.y2 = 60) := by
  intro h
  have hb := h _ (mem_boxes_of_getElem ⟨100, 100⟩ ⟨100, 100⟩ _ 0 _ ⟨-5, 10, 50, 60⟩ rfl rfl)
  obtain ⟨hx1, -⟩ := hb
  simp only [mkRenderedBox] at hx1
  norm_num [max_def] at hx1

/-- Corrected form of C10: with claimed dimensions equal to the true
dimensions the scale factors are 1, and the emitted box equals the input
highlight area exactly, provided the input already lies inside
`[0, trueWidth] x [0, trueHeight]` (otherwise the clamps change it). -/
theorem C10_amended_identity_for_in_frame_boxes (image : ImageDims)
    (pd : ProcessedDims) (diffs : List RawDifference) (i : ℕ)
    (d : RawDifference) (ha : HighlightArea)
    (hget : diffs[i]? = some d) (hha : d.highlight_area = some ha)
    (hweq : pd.width = image.width) (hheq : pd.height = image.height)
    (hw : 0 < image.width) (hh : 0 < image.height)
    (hx1 : 0 ≤ ha.x1) (hx2 : ha.x2 ≤ image.width)
    (hy1 : 0 ≤ ha.y1) (hy2 : ha.y2 ≤ image.height) :
    ∃ b ∈ (renderOutput image pd diffs).boxes,
      b.label = i + 1 ∧
      b.x1 = ha.x1 ∧ b.y1 = ha.y1 ∧ b.x2 = ha.x2 ∧ b.y2 = ha.y2 := by
  have hsX : image.width / pd.width = 1 := by
    rw [hweq]; exact div_self (ne_of_gt hw)
  have hsY : image.height / pd.height = 1 := by
    rw [hheq]; exact div_self (ne_of_gt hh)
  refine ⟨mkRenderedBox image (image.width / pd.width) (image.height / pd.height) i d ha,
    mem_boxes_of_getElem image pd diffs i d ha hget hha, rfl, ?_, ?_, ?_, ?_⟩
  · show max 0 (ha.x1 * (image.width / pd.width)) = ha.x1
    rw [hsX, mul_one]; exact max_eq_right hx1
  · show max 0 (ha.y1 * (image.height / pd.height)) = ha.y1
    rw [hsY, mul_one]; exact max_eq_right hy1
  · show min image.width (ha.x2 * (image.width / pd.width)) = ha.x2
    rw [hsX, mul_one]; exact min_eq_right hx2
  · show min image.height (ha.y2 * (image.height / pd.height)) = ha.y2
    rw [hsY, mul_one]; exact min_eq_right hy2

/-- Witness for the corrected C10: equal dimensions 800 x 600 and an
in-frame highlight area map to themselves. -/
theorem C10_amended_identity_for_in_frame_boxes_witness :
    ([sampleDiff "layout_change" (some ⟨50, 50, 150, 100⟩)])[0]? =
      some (sampleDiff "layout_change" (some ⟨50, 50, 150, 100⟩)) ∧
    (800 : ℚ) = 800 ∧ (600 : ℚ) = 600 ∧ (0 : ℚ) < 800 ∧ (0 : ℚ) < 600 ∧
    (0 : ℚ) ≤ 50 ∧ (150 : ℚ) ≤ 800 ∧ (0 : ℚ) ≤ 50 ∧ (100 : ℚ) ≤ 600 ∧
    ∃ b ∈ (renderOutput ⟨800, 600⟩ ⟨800, 600⟩
        [sampleDiff "layout_change" (some ⟨50, 50, 150, 100⟩)]).boxes,
      b.label = 0 + 1 ∧
      b.x1 = (50 : ℚ) ∧ b.y1 = (50 : ℚ) ∧ b.x2 = (150 : ℚ) ∧ b.y2 = (100 : ℚ) :=
  ⟨rfl, rfl, rfl, by decide, by decide, by decide, by decide, by decide, by decide,
    C10_amended_identity_for_in_frame_boxes ⟨800, 600⟩ ⟨800, 600⟩ _ 0 _
      ⟨50, 50, 150, 100⟩ rfl rfl rfl rfl (by decide) (by decide)
      (by decide) (by decide) (by decide) (by decide)⟩

/-! ** Claim C9 ** -/

/-- Claim C9: the expanded canvas keeps the source width, is exactly 40
pixels taller (the legend band), and the legend reads
"(N) UI differences detected" where N counts every input record,
including non-renderable ones.  (The source raster itself is an immutable
input value of the embedding; the output is a fresh `RenderedOutput`.) -/
theorem C9_expanded_canvas_and_legend (image : ImageDims) (pd : ProcessedDims)
    (diffs : List RawDifference) :
    (renderOutput image pd diffs).width = image.width ∧
    (renderOutput image pd diffs).height = image.height + 40 ∧
    (renderOutput image pd diffs).legendText =
      toString diffs.length ++ " UI differences detected" :=
  ⟨rfl, rfl, rfl⟩

/-! ** Claim C8 ** -/

theorem filterMap_opt_positions {α β γ : Type} (g : α → Option β) (h : α → γ)
    (l : List α) :
    l.filterMap (fun a => (g a).map (fun _ => h a)) =
      (l.filter (fun a => (g a).isSome)).map h := by
  induction l with
  | nil => rfl
  | cons a l ih =>
    cases hg : g a <;> simp [List.filterMap_cons, List.filter_cons, hg, ih]

/-- Claim C8: records without a `highlight_area` are skipped without
aborting the pass, the remaining records keep their relative order, and
every drawn label is the 1-based position of its record in the original
input list, independent of type and geometry. -/
theorem C8_skipping_order_and_labels (image : ImageDims) (pd : ProcessedDims)
    (diffs : List RawDifference) :
    (renderOutput image pd diffs).boxes.map (fun b => b.label) =
      (diffs.enum.filter (fun p => p.2.highlight_area.isSome)).map
        (fun p => p.1 + 1) ∧
    ∀ b ∈ (renderOutput image pd diffs).boxes, b.labelText = toString b.label := by
  constructor
  · show (renderBoxes image (image.width / pd.width) (image.height / pd.height)
        diffs).map (fun b => b.label) = _
    rw [renderBoxes_eq_filterMap, List.map_filterMap]
    have hpt : ∀ p : ℕ × RawDifference,
        (p.2.highlight_area.map
          (mkRenderedBox image (image.width / pd.width) (image.height / pd.height)
            p.1 p.2)).map (fun b => b.label)
        = p.2.highlight_area.map (fun _ => p.1 + 1) := by
      intro p; cases p.2.highlight_area <;> rfl
    simp only [hpt]
    exact filterMap_opt_positions _ _ _
  · intro b hb
    simp only [renderOutput, renderBoxes_eq_filterMap, List.mem_filterMap] at hb
    obtain ⟨p, -, hp⟩ := hb
    obtain ⟨ha, -, rfl⟩ := Option.map_eq_some'.mp hp
    rfl

/-! ** Claim C3 ** -/

/-- Claim C3 is false as stated: the code contains no zero-dimension
check and no MalformedPayloadError; the scale division is performed
unconditionally.  With claimed width 0 (and a decodable 800 x 600 image,
one renderable difference) the run completes normally and writes an
output file instead of signalling an error.  (In JavaScript the division
yields Infinity and the canvas silently skips the non-finite rectangle;
the file is still written and its path returned.) -/
theorem C3_counterexample_zero_width_not_rejected :
    (createHighlightedImage "screenshot.png"
        (some [sampleDiff "text_change" (some ⟨10, 10, 20, 20⟩)])
        (some ⟨0, 300⟩) (.ok ⟨800, 600⟩) "2026-01-01T00:00:00.000Z").outputPath =
      some "output/diff_screenshot_2026-01-01T00-00-00-000Z.png" ∧
    (createHighlightedImage "screenshot.png"
        (some [sampleDiff "text_change" (some ⟨10, 10, 20, 20⟩)])
        (some ⟨0, 300⟩) (.ok ⟨800, 600⟩) "2026-01-01T00:00:00.000Z").writes =
      ["output/diff_screenshot_2026-01-01T00-00-00-000Z.png"] :=
  ⟨rfl, rfl⟩

/-- Corrected form of C3: a claimed width or height of zero is not
rejected — the division is unguarded, no error of any kind is signalled,
and the pipeline still produces and writes an output file. -/
theorem C3_amended_zero_dims_not_guarded (imagePath : String)
    (diffs : List RawDifference) (pd : ProcessedDims) (image : ImageDims)
    (ts : String) (hne : diffs ≠ []) (_hzero : pd.width = 0 ∨ pd.height = 0) :
    (createHighlightedImage imagePath (some diffs) (some pd) (.ok image) ts).outputPath =
      some ("output/" ++ ("diff_" ++ baseFilename imagePath ++ "_" ++
        sanitizeTimestamp ts ++ ".png")) ∧
    (createHighlightedImage imagePath (some diffs) (some pd) (.ok image) ts).writes =
      ["output/" ++ ("diff_" ++ baseFilename imagePath ++ "_" ++
        sanitizeTimestamp ts ++ ".png")] ∧
    (createHighlightedImage imagePath (some diffs) (some pd) (.ok image) ts).rendered =
      some (renderOutput image pd diffs) := by
  have hlen : ¬ diffs.length = 0 := by
    simpa [List.length_eq_zero] using hne
  simp [createHighlightedImage, hlen]

/-- Witness for the corrected C3, with claimed dimensions 0 x 300. -/
theorem C3_amended_zero_dims_not_guarded_witness :
    [sampleDiff "text_change" (some ⟨10, 10, 20, 20⟩)] ≠ [] ∧
    ((⟨0, 300⟩ : ProcessedDims).width = 0 ∨ (⟨0, 300⟩ : ProcessedDims).height = 0) ∧
    ((createHighlightedImage "screenshot.png"
        (some [sampleDiff "text_change" (some ⟨10, 10, 20, 20⟩)])
        (some ⟨0, 300⟩) (.ok ⟨800, 600⟩) "2026-01-01T00:00:00.000Z").outputPath =
      some ("output/" ++ ("diff_" ++ baseFilename "screenshot.png" ++ "_" ++
        sanitizeTimestamp "2026-01-01T00:00:00.000Z" ++ ".png")) ∧
    (createHighlightedImage "screenshot.png"
        (some [sampleDiff "text_change" (some ⟨10, 10, 20, 20⟩)])
        (some ⟨0, 300⟩) (.ok ⟨800, 600⟩) "2026-01-01T00:00:00.000Z").writes =
      ["output/" ++ ("diff_" ++ baseFilename "screenshot.png" ++ "_" ++
        sanitizeTimestamp "2026-01-01T00:00:00.000Z" ++ ".png")] ∧
    (createHighlightedImage "screenshot.png"
        (some [sampleDiff "text_change" (some ⟨10, 10, 20, 20⟩)])
        (some ⟨0, 300⟩) (.ok ⟨800, 600⟩) "2026-01-01T00:00:00.000Z").rendered =
      some (renderOutput ⟨800, 600⟩ ⟨0, 300⟩
        [sampleDiff "text_change" (some ⟨10, 10, 20, 20⟩)])) :=
  ⟨by simp, Or.inl rfl,
    C3_amended_zero_dims_not_guarded "screenshot.png" _ ⟨0, 300⟩ ⟨800, 600⟩
      "2026-01-01T00:00:00.000Z" (by simp) (Or.inl rfl)⟩

/-! ** Claim C7 ** -/

/-- Claim C7 is false as stated: a failing image decode is caught by the
catch-all inside `createHighlightedImage`, which returns `null`; the
comparison then completes as a normal result carrying a null
`highlightedImagePath` instead of propagating a fatal error.  (The
claim's second half — no partial file is written — does hold: the writes
list is empty.) -/
theorem C7_counterexample_load_error_not_propagated :
    (compareImages loadFailEnv).result =
      .ok { analysis := loadFailEnv.responseContent,
            highlightedImagePath := none,
            timestamp := "2026-10-11T12:00:00.000Z" } ∧
    (compareImages loadFailEnv).writes = [] :=
  ⟨rfl, rfl⟩

/-- Corrected form of C7: when the source image cannot be decoded, the
error is caught inside `createHighlightedImage`; the call returns a null
path, nothing is rendered and no file (partial or otherwise) is
written. -/
theorem C7_amended_decode_failure_caught (imagePath : String)
    (diffs : List RawDifference) (pd : Option ProcessedDims) (e ts : String) :
    createHighlightedImage imagePath (some diffs) pd (.error e) ts =
      { outputPath := none, writes := [], rendered := none } := by
  cases diffs with
  | nil => rfl
  | cons d l => simp [createHighlightedImage]

/-! ** Claim C6 ** -/

/-- Claim C6: when the extracted differences list is empty,
`createHighlightedImage` returns before loading, drawing or writing
anything (`null` path, no render, no write), and the surrounding
`compareImages` run completes normally with a null
`highlightedImagePath` and an empty set of written files. -/
theorem C6_empty_differences_is_noop :
    (∀ (imagePath : String) (pd : Option ProcessedDims)
        (load : Except String ImageDims) (ts : String),
      createHighlightedImage imagePath (some []) pd load ts =
        { outputPath := none, writes := [], rendered := none }) ∧
    (∀ (env : CompareEnv) (pdJson dJson inner : Json),
      env.access1 = true → env.access2 = true →
      extractJsonObject env.responseContent "processed_dimensions" = .ok pdJson →
      extractJsonObject env.responseContent "differences" = .ok dJson →
      decodeDifferencesDoc dJson = some [] →
      getField pdJson "processed_dimensions" = some inner →
      (compareImages env).writes = [] ∧
      ∃ r, (compareImages env).result = Except.ok r ∧
        r.highlightedImagePath = none) := by
  constructor
  · intro _ _ _ _; rfl
  · intro env pdJson dJson inner ha1 ha2 h1 h2 h3 h4
    simp only [compareImages, ha1, ha2, h1, h2, h3, h4]
    refine ⟨by simp [createHighlightedImage],
      ⟨{ analysis := env.responseContent, highlightedImagePath := none,
         timestamp := env.timestamp }, ?_, rfl⟩⟩
    simp [createHighlightedImage]

/-- Witness for C6 at a concrete response text carrying a well-formed
`processed_dimensions` block and an empty `differences` block. -/
theorem C6_empty_differences_is_noop_witness :
    emptyDiffEnv.access1 = true ∧ emptyDiffEnv.access2 = true ∧
    extractJsonObject emptyDiffEnv.responseContent "processed_dimensions" =
      .ok pdJsonSample ∧
    extractJsonObject emptyDiffEnv.responseContent "differences" =
      .ok dJsonEmptySample ∧
    decodeDifferencesDoc dJsonEmptySample = some [] ∧
    getField pdJsonSample "processed_dimensions" = some pdInnerSample ∧
    ((compareImages emptyDiffEnv).writes = [] ∧
      ∃ r, (compareImages emptyDiffEnv).result = Except.ok r ∧
        r.highlightedImagePath = none) :=
  ⟨rfl, rfl, rfl, rfl, rfl, rfl,
    C6_empty_differences_is_noop.2 emptyDiffEnv pdJsonSample dJsonEmptySample
      pdInnerSample rfl rfl rfl rfl rfl rfl⟩

/-! ** Claim C5 ** -/

theorem extract_error_carries (c n : String) (f : ExtractFailure)
    (h : extractJsonObject c n = .error f) :
    f.objectName = n ∧ f.rawContent = c := by
  unfold extractJsonObject at h
  cases hm : findFirstMatch n.data c.data with
  | none =>
    simp only [hm] at h
    injection h with h
    rw [← h]
    exact ⟨rfl, rfl⟩
  | some g =>
    simp only [hm] at h
    cases hp : parseJson g with
    | some v => simp only [hp] at h; cases h
    | none =>
      simp only [hp] at h
      injection h with h
      rw [← h]
      exact ⟨rfl, rfl⟩

/-- Claim C5: when no fenced block keyed by the requested name exists,
extraction fails with the not-found failure carrying the object name and
the whole original blob; when a block matches but its span does not
parse, extraction fails with the malformed-payload failure; and a
`compareImages` run over a response without a `differences` block writes
no file and surfaces an extraction failure that preserves the original
text. -/
theorem C5_extraction_failure_modes :
    (∀ (content name : String),
      findFirstMatch name.data content.data = none →
      extractJsonObject content name =
        .error ⟨name, content, .notFound⟩) ∧
    (∀ (content name : String) (g : List Char),
      findFirstMatch name.data content.data = some g →
      parseJson g = none →
      extractJsonObject content name =
        .error ⟨name, content, .parseFailure⟩) ∧
    (∀ env : CompareEnv, env.access1 = true → env.access2 = true →
      findFirstMatch ("differences".data) env.responseContent.data = none →
      (compareImages env).writes = [] ∧
      ∃ f, (compareImages env).result = .error (.extractErr f) ∧
        f.rawContent = env.responseContent) := by
  refine ⟨?_, ?_, ?_⟩
  · intro content name h
    simp [extractJsonObject, h]
  · intro content name g h hp
    simp [extractJsonObject, h, hp]
  · intro env ha1 ha2 h
    cases hpd : extractJsonObject env.responseContent "processed_dimensions" with
    | error f =>
      obtain ⟨-, hraw⟩ := extract_error_carries _ _ _ hpd
      simp only [compareImages, ha1, ha2, hpd]
      exact ⟨rfl, f, rfl, hraw⟩
    | ok pdJson =>
      have hd : extractJsonObject env.responseContent "differences" =
          .error ⟨"differences", env.responseContent, .notFound⟩ := by
        simp [extractJsonObject, h]
      simp only [compareImages, ha1, ha2, hpd, hd]
      exact ⟨rfl, _, rfl, rfl⟩

/-- Witness for C5: a prose-only response yields the not-found failure for
both names and a file-less erroring run; a fenced but unparseable
`differences` block yields the malformed-payload failure. -/
theorem C5_extraction_failure_modes_witness :
    (findFirstMatch ("differences".data) noBlockContent.data = none ∧
      extractJsonObject noBlockContent "differences" =
        .error ⟨"differences", noBlockContent, .notFound⟩) ∧
    (findFirstMatch ("differences".data) badDiffContent.data =
        some ("\x7b\"differences\": oops\x7d".data) ∧
      parseJson ("\x7b\"differences\": oops\x7d".data) = none ∧
      extractJsonObject badDiffContent "differences" =
        .error ⟨"differences", badDiffContent, .parseFailure⟩) ∧
    (noBlockEnv.access1 = true ∧ noBlockEnv.access2 = true ∧
      findFirstMatch ("differences".data) noBlockEnv.responseContent.data = none ∧
      ((compareImages noBlockEnv).writes = [] ∧
        ∃ f, (compareImages noBlockEnv).result = .error (.extractErr f) ∧
          f.rawContent = noBlockEnv.responseContent)) :=
  ⟨⟨rfl, C5_extraction_failure_modes.1 noBlockContent "differences" rfl⟩,
   ⟨rfl, rfl, C5_extraction_failure_modes.2.1 badDiffContent "differences"
      ("\x7b\"differences\": oops\x7d".data) rfl rfl⟩,
   ⟨rfl, rfl, rfl, C5_extraction_failure_modes.2.2 noBlockEnv rfl rfl rfl⟩⟩

/-! ** Round-trip of the JSON embedding, part 1: numbers ** -/

theorem isDigitChar_spec {c : Char} (h : isDigitChar c = true) :
    48 ≤ c.toNat ∧ c.toNat ≤ 57 := by
  simpa [isDigitChar] using h

theorem digitChar_spec {m : ℕ} (h : m < 10) :
    (digitChar m).toNat = 48 + m ∧ isDigitChar (digitChar m) = true ∧
      digitVal (digitChar m) = m := by
  interval_cases m <;> exact ⟨by decide, by decide, by decide⟩

theorem natDigitsFuel_digits : ∀ (fuel n : ℕ), ∀ c ∈ natDigitsFuel fuel n,
    isDigitChar c = true := by
  intro fuel
  induction fuel with
  | zero => intro n c hc; simp [natDigitsFuel] at hc
  | succ f ih =>
    intro n c hc
    cases n with
    | zero => simp [natDigitsFuel] at hc
    | succ m =>
      simp only [natDigitsFuel, List.mem_cons] at hc
      rcases hc with rfl | hc
      · exact (digitChar_spec (Nat.mod_lt _ (by norm_num))).2.1
      · exact ih _ _ hc

theorem natDigitsFuel_toNat : ∀ (fuel n : ℕ), n ≤ fuel →
    digitsToNat ((natDigitsFuel fuel n).reverse) = n := by
  intro fuel
  induction fuel with
  | zero =>
    intro n hn
    interval_cases n
    simp [natDigitsFuel, digitsToNat]
  | succ f ih =>
    intro n hn
    cases n with
    | zero => simp [natDigitsFuel, digitsToNat]
    | succ m =>
      have hdiv : (m + 1) / 10 ≤ f := by
        have := Nat.div_lt_self (Nat.succ_pos m) (by norm_num : 1 < 10)
        omega
      simp only [natDigitsFuel, List.reverse_cons]
      unfold digitsToNat
      rw [List.foldl_append]
      have hrec := ih ((m + 1) / 10) hdiv
      unfold digitsToNat at hrec
      rw [hrec]
      simp only [List.foldl_cons, List.foldl_nil]
      rw [(digitChar_spec (Nat.mod_lt _ (by norm_num : 0 < 10))).2.2]
      omega

theorem natDigitsFuel_ne_nil {fuel n : ℕ} (h0 : 0 < n) (hn : n ≤ fuel) :
    natDigitsFuel fuel n ≠ [] := by
  cases fuel with
  | zero => omega
  | succ f =>
    cases n with
    | zero => omega
    | succ m => simp [natDigitsFuel]

/-- The most significant digit of a positive number is not zero. -/
theorem natDigitsFuel_getLast : ∀ (n : ℕ) (fuel : ℕ), 0 < n → n ≤ fuel →
    ∃ m, 0 < m ∧ m < 10 ∧ (natDigitsFuel fuel n).getLast? = some (digitChar m) := by
  intro n
  induction n using Nat.strong_induction_on with
  | _ n ihn =>
    intro fuel h0 hn
    cases fuel with
    | zero => omega
    | succ f =>
      cases n with
      | zero => omega
      | succ m =>
        by_cases hsmall : m + 1 < 10
        · have hdiv0 : (m + 1) / 10 = 0 := Nat.div_eq_of_lt hsmall
          have hmod : (m + 1) % 10 = m + 1 := Nat.mod_eq_of_lt hsmall
          refine ⟨m + 1, Nat.succ_pos m, hsmall, ?_⟩
          simp only [natDigitsFuel, hdiv0, hmod]
          cases f with
          | zero => simp [natDigitsFuel]
          | succ f2 => simp [natDigitsFuel]
        · have hdivpos : 0 < (m + 1) / 10 := by
            have : 10 ≤ m + 1 := by omega
            exact Nat.div_pos this (by norm_num)
          have hdivlt : (m + 1) / 10 < m + 1 :=
            Nat.div_lt_self (Nat.succ_pos m) (by norm_num)
          have hdivle : (m + 1) / 10 ≤ f := by omega
          obtain ⟨k, hk0, hk10, hlast⟩ := ihn ((m + 1) / 10) hdivlt f hdivpos hdivle
          refine ⟨k, hk0, hk10, ?_⟩
          obtain ⟨x, xs, hx⟩ :=
            List.exists_cons_of_ne_nil (natDigitsFuel_ne_nil hdivpos hdivle)
          simp only [natDigitsFuel, hx, List.getLast?_cons_cons]
          rw [← hx, hlast]

theorem serializeNat_digits (n : ℕ) : ∀ c ∈ serializeNat n, isDigitChar c = true := by
  intro c hc
  unfold serializeNat at hc
  by_cases h : n = 0
  · simp [h] at hc
    rw [hc]; decide
  · simp only [h, if_false, List.mem_reverse] at hc
    exact natDigitsFuel_digits n n c hc

theorem serializeNat_ne_nil (n : ℕ) : serializeNat n ≠ [] := by
  unfold serializeNat
  by_cases h : n = 0
  · simp [h]
  · simp only [h, if_false, ne_eq, List.reverse_eq_nil_iff]
    exact natDigitsFuel_ne_nil (Nat.pos_of_ne_zero h) le_rfl

theorem serializeNat_toNat (n : ℕ) : digitsToNat (serializeNat n) = n := by
  unfold serializeNat
  by_cases h : n = 0
  · subst h; decide
  · simp only [h, if_false]
    exact natDigitsFuel_toNat n n le_rfl

/-- A serialized number starting with the digit 0 is "0" itself. -/
theorem serializeNat_head_zero {n : ℕ}
    (h : (serializeNat n).head? = some '0') : serializeNat n = ['0'] := by
  by_cases h0 : n = 0
  · subst h0; rfl
  · exfalso
    unfold serializeNat at h
    simp only [h0, if_false] at h
    obtain ⟨m, hm0, hm10, hlast⟩ :=
      natDigitsFuel_getLast n n (Nat.pos_of_ne_zero h0) le_rfl
    rw [List.head?_reverse, hlast] at h
    injection h with h
    have hval := (digitChar_spec hm10).1
    rw [h] at hval
    have : ('0' : Char).toNat = 48 := by decide
    omega

theorem takeWhile_append_all {p : Char → Bool} : ∀ (l r : List Char),
    (∀ c ∈ l, p c = true) → (∀ c, r.head? = some c → p c = false) →
    (l ++ r).takeWhile p = l ∧ (l ++ r).dropWhile p = r := by
  intro l
  induction l with
  | nil =>
    intro r _ hr
    cases r with
    | nil => exact ⟨rfl, rfl⟩
    | cons c cs =>
      have := hr c rfl
      simp [List.takeWhile_cons, List.dropWhile_cons, this]
  | cons a l ih =>
    intro r hl hr
    have ha := hl a (List.mem_cons_self a l)
    have hrec := ih r (fun c hc => hl c (List.mem_cons_of_mem a hc)) hr
    simp [List.takeWhile_cons, List.dropWhile_cons, ha, hrec.1, hrec.2]

theorem parseNatPart_serializeNat (n : ℕ) (rest : List Char)
    (hrest : noDigitHead rest) :
    parseNatPart (serializeNat n ++ rest) = some (n, rest) := by
  obtain ⟨ht, hd⟩ := takeWhile_append_all (serializeNat n) rest
    (fun c hc => serializeNat_digits n c hc) hrest
  unfold parseNatPart
  simp only [ht, hd]
  rw [if_neg (serializeNat_ne_nil n)]
  rw [if_neg ?hlz]
  · rw [serializeNat_toNat]
  case hlz =>
    rintro ⟨hlen, hhead⟩
    rw [serializeNat_head_zero hhead] at hlen
    simp at hlen

theorem serializeNat_head_digit (n : ℕ) :
    ∃ c cs, serializeNat n = c :: cs ∧ isDigitChar c = true := by
  obtain ⟨c, cs, h⟩ := List.exists_cons_of_ne_nil (serializeNat_ne_nil n)
  refine ⟨c, cs, h, serializeNat_digits n c ?_⟩
  rw [h]; exact List.mem_cons_self c cs

theorem parseNumberBody_serializeInt (n : ℤ) (rest : List Char)
    (hrest : noDigitHead rest) :
    parseNumberBody (serializeInt n ++ rest) = some (n, rest) := by
  cases n with
  | ofNat m =>
    obtain ⟨c, cs, hs, hd⟩ := serializeNat_head_digit m
    have hne : c ≠ '-' := by rintro rfl; exact absurd hd (by decide)
    show parseNumberBody (serializeNat m ++ rest) = some ((m : ℤ), rest)
    rw [hs, List.cons_append]
    simp only [parseNumberBody]
    rw [if_neg hne, ← List.cons_append, ← hs, parseNatPart_serializeNat m rest hrest]
  | negSucc m =>
    show parseNumberBody ('-' :: (serializeNat (m + 1) ++ rest)) = _
    simp only [parseNumberBody, if_true]
    rw [parseNatPart_serializeNat (m + 1) rest hrest]
    simp [Int.negSucc_eq]

/-! ** Round-trip of the JSON embedding, part 2: strings ** -/

theorem hexVal_hexDigitChar {m : ℕ} (h : m < 16) :
    hexVal (hexDigitChar m) = some m := by
  interval_cases m <;> decide

theorem parseStringBody_escape : ∀ (k rest : List Char),
    parseStringBody (escapeString k ++ '"' :: rest) = some (k, rest) := by
  intro k
  induction k with
  | nil =>
    intro rest
    show parseStringBody ('"' :: rest) = some ([], rest)
    unfold parseStringBody
    rw [if_pos rfl]
  | cons c k ih =>
    intro rest
    rw [show escapeString (c :: k) = escapeChar c ++ escapeString k from rfl,
      List.append_assoc]
    unfold escapeChar
    split_ifs with h1 h2 h3 h4 h5 h6 h7 h8
    · subst h1
      show parseStringBody ('\\' :: '"' :: (escapeString k ++ '"' :: rest)) = _
      unfold parseStringBody
      rw [if_neg (by decide), if_pos rfl]
      dsimp only
      rw [if_pos rfl, ih]
      rfl
    · subst h2
      show parseStringBody ('\\' :: '\\' :: (escapeString k ++ '"' :: rest)) = _
      unfold parseStringBody
      rw [if_neg (by decide), if_pos rfl]
      dsimp only
      rw [if_neg (by decide), if_pos rfl, ih]
      rfl
    · subst h3
      show parseStringBody ('\\' :: 'n' :: (escapeString k ++ '"' :: rest)) = _
      unfold parseStringBody
      rw [if_neg (by decide), if_pos rfl]
      dsimp only
      rw [if_neg (by decide), if_neg (by decide), if_neg (by decide),
        if_neg (by decide), if_neg (by decide), if_pos rfl, ih]
      rfl
    · subst h4
      show parseStringBody ('\\' :: 'r' :: (escapeString k ++ '"' :: rest)) = _
      unfold parseStringBody
      rw [if_neg (by decide), if_pos rfl]
      dsimp only
      rw [if_neg (by decide), if_neg (by decide), if_neg (by decide),
        if_neg (by decide), if_neg (by decide), if_neg (by decide), if_pos rfl, ih]
      rfl
    · subst h5
      show parseStringBody ('\\' :: 't' :: (escapeString k ++ '"' :: rest)) = _
      unfold parseStringBody
      rw [if_neg (by decide), if_pos rfl]
      dsimp only
      rw [if_neg (by decide), if_neg (by decide), if_neg (by decide),
        if_neg (by decide), if_neg (by decide), if_neg (by decide), if_neg (by decide),
        if_pos rfl, ih]
      rfl
    · subst h6
      show parseStringBody ('\\' :: 'b' :: (escapeString k ++ '"' :: rest)) = _
      unfold parseStringBody
      rw [if_neg (by decide), if_pos rfl]
      dsimp only
      rw [if_neg (by decide), if_neg (by decide), if_neg (by decide), if_pos rfl, ih]
      rfl
    · subst h7
      show parseStringBody ('\\' :: 'f' :: (escapeString k ++ '"' :: rest)) = _
      unfold parseStringBody
      rw [if_neg (by decide), if_pos rfl]
      dsimp only
      rw [if_neg (by decide), if_neg (by decide), if_neg (by decide),
        if_neg (by decide), if_pos rfl, ih]
      rfl
    · -- unicode escape for the remaining control characters
      show parseStringBody ('\\' :: 'u' :: '0' :: '0' ::
          hexDigitChar (c.toNat / 16) :: hexDigitChar (c.toNat % 16) ::
          (escapeString k ++ '"' :: rest)) = _
      unfold parseStringBody
      rw [if_neg (by decide), if_pos rfl]
      dsimp only
      rw [if_neg (by decide), if_neg (by decide), if_neg (by decide),
        if_neg (by decide), if_neg (by decide), if_neg (by decide), if_neg (by decide),
        if_neg (by decide), if_pos rfl]
      have hdiv : c.toNat / 16 < 16 := by omega
      have hmod : c.toNat % 16 < 16 := Nat.mod_lt _ (by norm_num)
      rw [show hexVal '0' = some 0 from by decide,
        hexVal_hexDigitChar hdiv, hexVal_hexDigitChar hmod]
      dsimp only
      have hcode : 4096 * 0 + 256 * 0 + 16 * (c.toNat / 16) + c.toNat % 16 = c.toNat := by
        omega
      rw [hcode, if_pos (by omega), ih, Char.ofNat_toNat]
      rfl
    · -- plain character
      show parseStringBody (c :: (escapeString k ++ '"' :: rest)) = _
      unfold parseStringBody
      rw [if_neg h1, if_neg h2, if_neg h8, ih]
      rfl

/-! ** Round-trip of the JSON embedding, part 3: documents ** -/

theorem jsize_pos (v : Json) : 1 ≤ jsize v := by
  cases v <;> simp [jsize]

theorem skipWs_cons_not_ws {c : Char} (h : isJsonWs c = false) (l : List Char) :
    skipWs (c :: l) = c :: l := by
  simp [skipWs, List.dropWhile_cons, h]

theorem stripLit_append_self (p s : List Char) : stripLit p (p ++ s) = some s := by
  induction p with
  | nil => rfl
  | cons a p ih => simp [stripLit, ih]

theorem stripLit_ne_head {l c : Char} (ls cs : List Char) (h : c ≠ l) :
    stripLit (l :: ls) (c :: cs) = none := by
  simp [stripLit, h]

theorem isJsonWs_of_digit {c : Char} (hd : isDigitChar c = true) :
    isJsonWs c = false := by
  by_contra h
  have hws : isJsonWs c = true := by
    cases hb : isJsonWs c
    · exact absurd hb h
    · rfl
  simp only [isJsonWs, Bool.or_eq_true, decide_eq_true_eq] at hws
  rcases hws with ((rfl | rfl) | rfl) | rfl <;> exact absurd hd (by decide)

theorem digit_char_ne {c : Char} (hd : isDigitChar c = true) :
    c ≠ 'n' ∧ c ≠ 't' ∧ c ≠ 'f' ∧ c ≠ '"' ∧ c ≠ '[' ∧ c ≠ '{' ∧
      c ≠ ']' ∧ c ≠ '}' ∧ c ≠ ',' ∧ c ≠ ':' ∧ c ≠ '-' := by
  refine ⟨?_, ?_, ?_, ?_, ?_, ?_, ?_, ?_, ?_, ?_, ?_⟩ <;>
    (rintro rfl; exact absurd hd (by decide))

/-- Head character of a serialized document, with the classification
facts the parser dispatch needs. -/
theorem serializeJson_head_facts (v : Json) :
    ∃ c cs, serializeJson v = c :: cs ∧
      isJsonWs c = false ∧ c ≠ ']' ∧ c ≠ '}' ∧ c ≠ ',' := by
  cases v with
  | null => refine ⟨'n', _, rfl, ?_, ?_, ?_, ?_⟩ <;> decide
  | bool b =>
    cases b with
    | true => refine ⟨'t', _, rfl, ?_, ?_, ?_, ?_⟩ <;> decide
    | false => refine ⟨'f', _, rfl, ?_, ?_, ?_, ?_⟩ <;> decide
  | num n =>
    cases n with
    | ofNat m =>
      obtain ⟨c, cs, hs, hd⟩ := serializeNat_head_digit m
      obtain ⟨-, -, -, -, -, -, h1, h2, h3, -, -⟩ := digit_char_ne hd
      exact ⟨c, cs, hs, isJsonWs_of_digit hd, h1, h2, h3⟩
    | negSucc m =>
      refine ⟨'-', serializeNat (m + 1), rfl, ?_, ?_, ?_, ?_⟩ <;> decide
  | str s => refine ⟨'"', _, rfl, ?_, ?_, ?_, ?_⟩ <;> decide
  | arr xs => refine ⟨'[', _, rfl, ?_, ?_, ?_, ?_⟩ <;> decide
  | obj fs => refine ⟨'{', _, rfl, ?_, ?_, ?_, ?_⟩ <;> decide

theorem noDigitHead_nil : noDigitHead [] := by
  intro c hc
  cases hc

theorem noDigitHead_cons {c : Char} (h : isDigitChar c = false) (l : List Char) :
    noDigitHead (c :: l) := by
  intro d hd
  injection hd with hd
  rw [← hd]
  exact h

/-- Generic dispatch of `parseVal` at a non-keyword head character. -/
theorem parseVal_dispatch (fuel : ℕ) (c : Char) (t : List Char)
    (hws : isJsonWs c = false) (hn : c ≠ 'n') (ht : c ≠ 't') (hf : c ≠ 'f') :
    parseVal (fuel + 1) (c :: t) =
      (if c = '"' then (parseStringBody t).map (fun p => (Json.str p.1, p.2))
       else if c = '[' then
         match skipWs t with
         | [] => none
         | c2 :: r2 =>
           if c2 = ']' then some (.arr [], r2)
           else (parseItems fuel (c2 :: r2)).map (fun p => (.arr p.1, p.2))
       else if c = '{' then
         match skipWs t with
         | [] => none
         | c2 :: r2 =>
           if c2 = '}' then some (.obj [], r2)
           else (parseFields fuel (c2 :: r2)).map (fun p => (.obj p.1, p.2))
       else (parseNumberBody (c :: t)).map (fun p => (.num p.1, p.2))) := by
  unfold parseVal
  dsimp only
  rw [skipWs_cons_not_ws hws]
  rw [stripLit_ne_head _ _ hn]
  dsimp only
  rw [stripLit_ne_head _ _ ht]
  dsimp only
  rw [stripLit_ne_head _ _ hf]

theorem serializeInt_head (n : ℤ) : ∃ c cs, serializeInt n = c :: cs ∧
    isJsonWs c = false ∧ c ≠ 'n' ∧ c ≠ 't' ∧ c ≠ 'f' ∧
    c ≠ '"' ∧ c ≠ '[' ∧ c ≠ '{' := by
  cases n with
  | ofNat m =>
    obtain ⟨c, cs, hs, hd⟩ := serializeNat_head_digit m
    obtain ⟨h1, h2, h3, h4, h5, h6, -, -, -, -, -⟩ := digit_char_ne hd
    exact ⟨c, cs, hs, isJsonWs_of_digit hd, h1, h2, h3, h4, h5, h6⟩
  | negSucc m =>
    refine ⟨'-', _, rfl, ?_, ?_, ?_, ?_, ?_, ?_, ?_⟩ <;> decide

theorem serializeItems_head (x : Json) (xs : List Json) :
    ∃ c cs, serializeItems (x :: xs) = c :: cs ∧
      isJsonWs c = false ∧ c ≠ ']' ∧ c ≠ '}' ∧ c ≠ ',' := by
  obtain ⟨c, cs, hs, hws, h1, h2, h3⟩ := serializeJson_head_facts x
  cases xs with
  | nil => exact ⟨c, cs, by simp [serializeItems, hs], hws, h1, h2, h3⟩
  | cons y ys =>
    refine ⟨c, cs ++ ',' :: serializeItems (y :: ys), ?_, hws, h1, h2, h3⟩
    simp [serializeItems, hs]

theorem serializeFields_cons_eq (k : List Char) (w : Json) (fs : List (List Char × Json)) (tail : List Char) :
    serializeFields ((k, w) :: fs) ++ tail =
      '"' :: (escapeString k ++ '"' :: ':' ::
        (serializeJson w ++
          (match fs with
           | [] => tail
           | f2 :: fs2 => ',' :: (serializeFields (f2 :: fs2) ++ tail)))) := by
  cases fs with
  | nil => simp [serializeFields, List.append_assoc]
  | cons f2 fs2 => simp [serializeFields, List.append_assoc]

/-- Parsing inverts serialization: the parser consumes exactly the
serialized document and returns the document, for any fuel at least the
node count and any remainder that does not begin with a digit. -/
theorem parse_serialize_bundle : ∀ fuel : ℕ,
    (∀ v rest, jsize v ≤ fuel → noDigitHead rest →
      parseVal fuel (serializeJson v ++ rest) = some (v, rest)) ∧
    (∀ xs rest, xs ≠ [] → isize xs ≤ fuel →
      parseItems fuel (serializeItems xs ++ ']' :: rest) = some (xs, rest)) ∧
    (∀ fs rest, fs ≠ [] → fsize fs ≤ fuel →
      parseFields fuel (serializeFields fs ++ '}' :: rest) = some (fs, rest)) := by
  intro fuel
  induction fuel with
  | zero =>
    refine ⟨?_, ?_, ?_⟩
    · intro v rest hs _
      have := jsize_pos v
      omega
    · intro xs rest hne hs
      cases xs with
      | nil => exact absurd rfl hne
      | cons x xs =>
        have := jsize_pos x
        simp [isize] at hs
    · intro fs rest hne hs
      cases fs with
      | nil => exact absurd rfl hne
      | cons f fs =>
        have := jsize_pos f.2
        simp [fsize] at hs
  | succ fuel ih =>
    obtain ⟨ihV, ihI, ihF⟩ := ih
    refine ⟨?_, ?_, ?_⟩
    · -- values
      intro v rest hs hrest
      cases v with
      | null =>
        show parseVal (fuel + 1) (['n', 'u', 'l', 'l'] ++ rest) = _
        unfold parseVal
        rfl
      | bool b =>
        cases b with
        | true =>
          show parseVal (fuel + 1) (['t', 'r', 'u', 'e'] ++ rest) = _
          unfold parseVal
          rfl
        | false =>
          show parseVal (fuel + 1) (['f', 'a', 'l', 's', 'e'] ++ rest) = _
          unfold parseVal
          rfl
      | num n =>
        obtain ⟨c, cs, hsn, hws, h1, h2, h3, h4, h5, h6⟩ := serializeInt_head n
        show parseVal (fuel + 1) (serializeInt n ++ rest) = _
        rw [hsn, List.cons_append,
          parseVal_dispatch fuel c _ hws h1 h2 h3,
          if_neg h4, if_neg h5, if_neg h6,
          ← List.cons_append, ← hsn,
          parseNumberBody_serializeInt n rest hrest]
        rfl
      | str s =>
        show parseVal (fuel + 1)
          (('"' :: (escapeString s ++ ['"'])) ++ rest) = _
        rw [List.cons_append, List.append_assoc,
          parseVal_dispatch fuel '"' _ (by decide) (by decide) (by decide) (by decide),
          if_pos rfl]
        rw [show (['"'] : List Char) ++ rest = '"' :: rest from rfl,
          parseStringBody_escape]
        rfl
      | arr xs =>
        cases xs with
        | nil =>
          show parseVal (fuel + 1) (('[' :: ([] ++ [']'])) ++ rest) = _
          unfold parseVal
          rfl
        | cons x xs =>
          show parseVal (fuel + 1)
            (('[' :: (serializeItems (x :: xs) ++ [']'])) ++ rest) = _
          rw [List.cons_append, List.append_assoc,
            parseVal_dispatch fuel '[' _ (by decide) (by decide) (by decide) (by decide),
            if_neg (by decide), if_pos rfl]
          obtain ⟨c2, cs2, hs2, hws2, hne2, -, -⟩ := serializeItems_head x xs
          rw [show ([']'] : List Char) ++ rest = ']' :: rest from rfl,
            hs2, List.cons_append, skipWs_cons_not_ws hws2]
          dsimp only
          rw [if_neg hne2, ← List.cons_append, ← hs2]
          have hsize : isize (x :: xs) ≤ fuel := by
            simp only [jsize, isize] at hs ⊢
            omega
          rw [ihI (x :: xs) rest (by simp) hsize]
          rfl
      | obj fs =>
        cases fs with
        | nil =>
          show parseVal (fuel + 1) (('{' :: ([] ++ ['}'])) ++ rest) = _
          unfold parseVal
          rfl
        | cons f fs =>
          show parseVal (fuel + 1)
            (('{' :: (serializeFields (f :: fs) ++ ['}'])) ++ rest) = _
          rw [List.cons_append, List.append_assoc,
            parseVal_dispatch fuel '{' _ (by decide) (by decide) (by decide) (by decide),
            if_neg (by decide), if_neg (by decide), if_pos rfl]
          obtain ⟨k, w⟩ := f
          rw [show (['}'] : List Char) ++ rest = '}' :: rest from rfl,
            serializeFields_cons_eq, skipWs_cons_not_ws (by decide)]
          dsimp only
          rw [if_neg (by decide)]
          rw [← serializeFields_cons_eq]
          have hsize : fsize ((k, w) :: fs) ≤ fuel := by
            simp only [jsize, fsize] at hs ⊢
            omega
          rw [ihF ((k, w) :: fs) rest (by simp) hsize]
          rfl
    · -- array items
      intro xs rest hne hs
      cases xs with
      | nil => exact absurd rfl hne
      | cons x xs =>
        cases xs with
        | nil =>
          show parseItems (fuel + 1) (serializeJson x ++ ']' :: rest) = _
          unfold parseItems
          have hjx : jsize x ≤ fuel := by
            simp only [isize] at hs
            omega
          rw [ihV x (']' :: rest) hjx (noDigitHead_cons (by decide) _)]
          dsimp only
          rw [skipWs_cons_not_ws (by decide)]
          rfl
        | cons y ys =>
          show parseItems (fuel + 1)
            ((serializeJson x ++ ',' :: serializeItems (y :: ys)) ++ ']' :: rest) = _
          rw [List.append_assoc, List.cons_append]
          unfold parseItems
          have hjx : jsize x ≤ fuel := by
            simp only [isize] at hs
            omega
          rw [ihV x _ hjx (noDigitHead_cons (by decide) _)]
          dsimp only
          rw [skipWs_cons_not_ws (by decide)]
          dsimp only
          have hsize : isize (y :: ys) ≤ fuel := by
            have := jsize_pos x
            simp only [isize] at hs ⊢
            omega
          rw [if_pos rfl, ihI (y :: ys) rest (by simp) hsize]
          rfl
    · -- object fields
      intro fs rest hne hs
      cases fs with
      | nil => exact absurd rfl hne
      | cons f fs =>
        obtain ⟨k, w⟩ := f
        have hjw : jsize w ≤ fuel := by
          simp only [fsize] at hs
          omega
        cases fs with
        | nil =>
          show parseFields (fuel + 1) (serializeFields [(k, w)] ++ '}' :: rest) = _
          rw [serializeFields_cons_eq]
          unfold parseFields
          rw [skipWs_cons_not_ws (by decide)]
          dsimp only
          rw [if_pos rfl, parseStringBody_escape]
          dsimp only
          rw [skipWs_cons_not_ws (by decide)]
          dsimp only
          rw [if_pos rfl, ihV w ('}' :: rest) hjw (noDigitHead_cons (by decide) _)]
          dsimp only
          rw [skipWs_cons_not_ws (by decide)]
          dsimp only
          rw [if_neg (by decide), if_pos rfl]
        | cons f2 fs2 =>
          show parseFields (fuel + 1)
            (serializeFields ((k, w) :: f2 :: fs2) ++ '}' :: rest) = _
          rw [serializeFields_cons_eq]
          unfold parseFields
          rw [skipWs_cons_not_ws (by decide)]
          dsimp only
          rw [if_pos rfl, parseStringBody_escape]
          dsimp only
          rw [skipWs_cons_not_ws (by decide)]
          dsimp only
          rw [if_pos rfl, ihV w _ hjw (noDigitHead_cons (by decide) _)]
          dsimp only
          rw [skipWs_cons_not_ws (by decide)]
          dsimp only
          have hsize : fsize (f2 :: fs2) ≤ fuel := by
            have := jsize_pos w
            simp only [fsize] at hs ⊢
            omega
          rw [if_pos rfl, ihF (f2 :: fs2) rest (by simp) hsize]
          rfl

theorem size_le_serialize_bundle : ∀ fuel : ℕ,
    (∀ v, jsize v ≤ fuel → jsize v ≤ (serializeJson v).length) ∧
    (∀ xs, isize xs ≤ fuel → isize xs ≤ (serializeItems xs).length + 1) ∧
    (∀ fs, fsize fs ≤ fuel → fsize fs ≤ (serializeFields fs).length + 1) := by
  intro fuel
  induction fuel with
  | zero =>
    refine ⟨?_, ?_, ?_⟩
    · intro v hs; have := jsize_pos v; omega
    · intro xs hs
      cases xs with
      | nil => simp [isize]
      | cons x xs => have := jsize_pos x; simp [isize] at hs
    · intro fs hs
      cases fs with
      | nil => simp [fsize]
      | cons f fs => have := jsize_pos f.2; simp [fsize] at hs
  | succ fuel ih =>
    obtain ⟨ihV, ihI, ihF⟩ := ih
    refine ⟨?_, ?_, ?_⟩
    · intro v hs
      cases v with
      | null => simp [jsize, serializeJson]
      | bool b => cases b <;> simp [jsize, serializeJson]
      | num n =>
        have h1 : 1 ≤ (serializeInt n).length := by
          cases n with
          | ofNat m =>
            have := serializeNat_ne_nil m
            show 1 ≤ (serializeNat m).length
            cases hm : serializeNat m with
            | nil => exact absurd hm this
            | cons a l => simp
          | negSucc m => simp [serializeInt]
        simpa [jsize, serializeJson] using h1
      | str s => simp [jsize, serializeJson]
      | arr xs =>
        have hx : isize xs ≤ fuel := by simp [jsize] at hs; omega
        have := ihI xs hx
        simp only [jsize, serializeJson, List.length_cons, List.length_append]
        omega
      | obj fs =>
        have hx : fsize fs ≤ fuel := by simp [jsize] at hs; omega
        have := ihF fs hx
        simp only [jsize, serializeJson, List.length_cons, List.length_append]
        omega
    · intro xs hs
      cases xs with
      | nil => simp [isize]
      | cons x xs =>
        have hjx : jsize x ≤ fuel := by simp [isize] at hs; omega
        have h1 := ihV x hjx
        cases xs with
        | nil => simp only [isize, serializeItems]; simp [isize]; omega
        | cons y ys =>
          have hys : isize (y :: ys) ≤ fuel := by
            have := jsize_pos x
            simp only [isize] at hs ⊢
            omega
          have h2 := ihI (y :: ys) hys
          simp only [isize, serializeItems, List.length_append, List.length_cons] at h2 ⊢
          omega
    · intro fs hs
      cases fs with
      | nil => simp [fsize]
      | cons f fs =>
        obtain ⟨k, w⟩ := f
        have hjw : jsize w ≤ fuel := by simp [fsize] at hs; omega
        have h1 := ihV w hjw
        cases fs with
        | nil =>
          simp only [fsize, serializeFields, List.length_cons, List.length_append]
          omega
        | cons f2 fs2 =>
          have hfs : fsize (f2 :: fs2) ≤ fuel := by
            have := jsize_pos w
            simp only [fsize] at hs ⊢
            omega
          have h2 := ihF (f2 :: fs2) hfs
          simp only [fsize, serializeFields, List.length_cons, List.length_append] at h2 ⊢
          omega

/-- Round trip: `JSON.parse` inverts `JSON.stringify` on every document of
the model. -/
theorem parseJson_serializeJson (v : Json) :
    parseJson (serializeJson v) = some v := by
  unfold parseJson
  have hfuel : jsize v ≤ (serializeJson v).length + 1 := by
    have h := (size_le_serialize_bundle (jsize v)).1 v le_rfl
    omega
  have h := (parse_serialize_bundle ((serializeJson v).length + 1)).1 v [] hfuel
    noDigitHead_nil
  rw [List.append_nil] at h
  rw [h]
  rfl

/-! ** No newline occurs inside a compact serialization ** -/

theorem hexDigitChar_ne_nl {m : ℕ} (h : m < 16) : hexDigitChar m ≠ '\n' := by
  interval_cases m <;> decide

theorem escapeChar_no_newline (c : Char) : '\n' ∉ escapeChar c := by
  unfold escapeChar
  split_ifs with h1 h2 h3 h4 h5 h6 h7 h8
  · decide
  · decide
  · decide
  · decide
  · decide
  · decide
  · decide
  · intro hm
    have hdiv : c.toNat / 16 < 16 := by omega
    have hmod : c.toNat % 16 < 16 := Nat.mod_lt _ (by norm_num)
    rcases List.mem_append.mp hm with h | h
    · exact absurd h (by decide)
    · simp only [List.mem_cons, List.not_mem_nil, or_false] at h
      rcases h with h | h
      · exact absurd h.symm (hexDigitChar_ne_nl hdiv)
      · exact absurd h.symm (hexDigitChar_ne_nl hmod)
  · intro hm
    simp only [List.mem_singleton] at hm
    subst hm
    exact h8 (by decide)

theorem escapeString_no_newline (k : List Char) : '\n' ∉ escapeString k := by
  induction k with
  | nil => simp [escapeString]
  | cons c k ih =>
    show '\n' ∉ escapeChar c ++ escapeString k
    rw [List.mem_append]
    rintro (h | h)
    · exact escapeChar_no_newline c h
    · exact ih h

theorem serializeNat_no_newline (n : ℕ) : '\n' ∉ serializeNat n := by
  intro hm
  have := serializeNat_digits n _ hm
  exact absurd this (by decide)

theorem serialize_no_newline_bundle : ∀ fuel : ℕ,
    (∀ v, jsize v ≤ fuel → '\n' ∉ serializeJson v) ∧
    (∀ xs, isize xs ≤ fuel → '\n' ∉ serializeItems xs) ∧
    (∀ fs, fsize fs ≤ fuel → '\n' ∉ serializeFields fs) := by
  intro fuel
  induction fuel with
  | zero =>
    refine ⟨?_, ?_, ?_⟩
    · intro v hs; have := jsize_pos v; omega
    · intro xs hs
      cases xs with
      | nil => simp [serializeItems]
      | cons x xs => have := jsize_pos x; simp [isize] at hs
    · intro fs hs
      cases fs with
      | nil => simp [serializeFields]
      | cons f fs => have := jsize_pos f.2; simp [fsize] at hs
  | succ fuel ih =>
    obtain ⟨ihV, ihI, ihF⟩ := ih
    refine ⟨?_, ?_, ?_⟩
    · intro v hs
      cases v with
      | null => decide
      | bool b => cases b <;> decide
      | num n =>
        cases n with
        | ofNat m => exact serializeNat_no_newline m
        | negSucc m =>
          show '\n' ∉ '-' :: serializeNat (m + 1)
          rw [List.mem_cons]
          rintro (h | h)
          · exact absurd h (by decide)
          · exact serializeNat_no_newline (m + 1) h
      | str s =>
        show '\n' ∉ '"' :: (escapeString s ++ ['"'])
        rw [List.mem_cons, List.mem_append]
        rintro (h | h | h)
        · exact absurd h (by decide)
        · exact escapeString_no_newline s h
        · simp at h
      | arr xs =>
        have hx : isize xs ≤ fuel := by simp [jsize] at hs; omega
        show '\n' ∉ '[' :: (serializeItems xs ++ [']'])
        rw [List.mem_cons, List.mem_append]
        rintro (h | h | h)
        · exact absurd h (by decide)
        · exact ihI xs hx h
        · simp at h
      | obj fs =>
        have hx : fsize fs ≤ fuel := by simp [jsize] at hs; omega
        show '\n' ∉ '{' :: (serializeFields fs ++ ['}'])
        rw [List.mem_cons, List.mem_append]
        rintro (h | h | h)
        · exact absurd h (by decide)
        · exact ihF fs hx h
        · simp at h
    · intro xs hs
      cases xs with
      | nil => simp [serializeItems]
      | cons x xs =>
        have hjx : jsize x ≤ fuel := by simp [isize] at hs; omega
        cases xs with
        | nil => exact ihV x hjx
        | cons y ys =>
          have hys : isize (y :: ys) ≤ fuel := by
            have := jsize_pos x
            simp only [isize] at hs ⊢
            omega
          show '\n' ∉ serializeJson x ++ ',' :: serializeItems (y :: ys)
          rw [List.mem_append, List.mem_cons]
          rintro (h | h | h)
          · exact ihV x hjx h
          · exact absurd h (by decide)
          · exact ihI (y :: ys) hys h
    · intro fs hs
      cases fs with
      | nil => simp [serializeFields]
      | cons f fs =>
        obtain ⟨k, w⟩ := f
        have hjw : jsize w ≤ fuel := by simp [fsize] at hs; omega
        have hkey : '\n' ∉ ('"' :: (escapeString k ++ '"' :: ':' :: serializeJson w)) := by
          rw [List.mem_cons, List.mem_append, List.mem_cons, List.mem_cons]
          rintro (h | h | h | h | h)
          · exact absurd h (by decide)
          · exact escapeString_no_newline k h
          · exact absurd h (by decide)
          · exact absurd h (by decide)
          · exact ihV w hjw h
        cases fs with
        | nil => exact hkey
        | cons f2 fs2 =>
          have hfs : fsize (f2 :: fs2) ≤ fuel := by
            have := jsize_pos w
            simp only [fsize] at hs ⊢
            omega
          show '\n' ∉ ('"' :: (escapeString k ++ '"' :: ':' :: serializeJson w)) ++
            ',' :: serializeFields (f2 :: fs2)
          intro hmem
          rcases List.mem_append.mp hmem with h | h
          · exact hkey h
          · rcases List.mem_cons.mp h with h | h
            · exact absurd h (by decide)
            · exact ihF (f2 :: fs2) hfs h

theorem serializeJson_no_newline (v : Json) : '\n' ∉ serializeJson v :=
  (serialize_no_newline_bundle (jsize v)).1 v le_rfl

/-! ** Identity of escaping on plain key names ** -/

theorem escapeChar_id {c : Char} (h1 : c ≠ '"') (h2 : c ≠ '\\')
    (h3 : 32 ≤ c.toNat) : escapeChar c = [c] := by
  unfold escapeChar
  rw [if_neg h1, if_neg h2,
    if_neg (by rintro rfl; simp at h3), if_neg (by rintro rfl; simp at h3),
    if_neg (by rintro rfl; simp at h3), if_neg (by rintro rfl; simp at h3),
    if_neg (by rintro rfl; simp at h3), if_neg (by omega)]

theorem escapeString_id {k : List Char}
    (h : ∀ c ∈ k, c ≠ '"' ∧ c ≠ '\\' ∧ 32 ≤ c.toNat) : escapeString k = k := by
  induction k with
  | nil => rfl
  | cons c k ih =>
    obtain ⟨h1, h2, h3⟩ := h c (List.mem_cons_self c k)
    show escapeChar c ++ escapeString k = c :: k
    rw [escapeChar_id h1 h2 h3, ih (fun d hd => h d (List.mem_cons_of_mem c hd))]
    rfl

/-! ** Lemmas on the pattern scanner ** -/

theorem stripCI_append_self (p s : List Char) : stripCI p (p ++ s) = some s := by
  induction p with
  | nil => rfl
  | cons a p ih => simp [stripCI, ih]

theorem stripCI_ne_head {l c : Char} (ls cs : List Char)
    (h : c.toLower ≠ l.toLower) : stripCI (l :: ls) (c :: cs) = none := by
  simp [stripCI, h]

theorem stripCI_isSome_append : ∀ (p s : List Char), p.length ≤ s.length →
    ∀ t, (stripCI p (s ++ t)).isSome = (stripCI p s).isSome := by
  intro p
  induction p with
  | nil => intro s _ t; rfl
  | cons l p ih =>
    intro s hlen t
    cases s with
    | nil => simp at hlen
    | cons c cs =>
      simp only [List.cons_append, stripCI]
      by_cases h : c.toLower = l.toLower
      · rw [if_pos h, if_pos h]
        exact ih cs (by simpa using hlen) t
      · rw [if_neg h, if_neg h]

theorem stripCI_sound : ∀ (p s r : List Char), stripCI p s = some r →
    (s.take p.length).map Char.toLower = p.map Char.toLower ∧
      s.drop p.length = r := by
  intro p
  induction p with
  | nil =>
    intro s r h
    injection h with h
    exact ⟨rfl, h⟩
  | cons l p ih =>
    intro s r h
    cases s with
    | nil => exact absurd h (by simp [stripCI])
    | cons c cs =>
      by_cases hc : c.toLower = l.toLower
      · rw [show stripCI (l :: p) (c :: cs) = stripCI p cs from by
          simp [stripCI, hc]] at h
        obtain ⟨h1, h2⟩ := ih cs r h
        refine ⟨?_, h2⟩
        simp only [List.length_cons, List.take_succ_cons, List.map_cons, h1, hc]
      · rw [stripCI_ne_head _ _ hc] at h
        cases h

/-- A case-insensitive fence opener cannot start inside a short prefix
and straddle into a genuine fence: the pattern has no nontrivial
self-overlap. -/
theorem stripCI_fence_straddle (s : List Char) (hne : s ≠ [])
    (u : List Char) (hs : (stripCI fenceOpen s).isSome = false) :
    stripCI fenceOpen (s ++ (fenceOpen ++ u)) = none := by
  by_cases hlen : 8 ≤ s.length
  · have hext := stripCI_isSome_append fenceOpen s (by simpa using hlen) (fenceOpen ++ u)
    rw [hs] at hext
    exact Option.not_isSome_iff_eq_none.mp (by simp [hext])
  · -- s is a nonempty prefix of fewer than 8 characters; the straddled
    -- window must repeat the fence with a shift, which its characters
    -- refuse.
    cases hmatch : stripCI fenceOpen (s ++ (fenceOpen ++ u)) with
    | none => rfl
    | some r =>
      exfalso
      have hchar := stripCI_sound fenceOpen (s ++ (fenceOpen ++ u)) r hmatch
      have hfl : fenceOpen.length = 8 := by decide
      rw [hfl] at hchar
      have hidx : ∀ i, i < 8 →
          (((s ++ (fenceOpen ++ u)).take 8)[i]?).map Char.toLower =
            (fenceOpen.map Char.toLower)[i]? := by
        intro i hi
        have hcg := congrArg (fun l => l[i]?) hchar.1
        simp only at hcg
        rw [List.getElem?_map] at hcg
        exact hcg
      have hk1 : 1 ≤ s.length := by
        cases s with
        | nil => exact absurd rfl hne
        | cons a l => simp
      have hk7 : s.length ≤ 7 := by omega
      set k := s.length with hk
      clear_value k
      have hidx2 : ∀ i, k ≤ i → i < 8 →
          ((s ++ (fenceOpen ++ u)).take 8)[i]? = fenceOpen[i - k]? := by
        intro i hki hi8
        rw [List.getElem?_take_of_lt hi8]
        rw [List.getElem?_append_right (by omega)]
        rw [List.getElem?_append_left (by rw [hfl]; omega)]
        rw [← hk]
      by_cases hk3 : k ≤ 3
      · have h3 := hidx 3 (by norm_num)
        rw [hidx2 3 (by omega) (by norm_num)] at h3
        have hval : fenceOpen[3 - k]? = some '\x60' := by
          interval_cases k <;> decide
        rw [hval] at h3
        exact absurd h3 (by decide)
      · have h3 := hidx k (by omega)
        rw [hidx2 k (by omega) (by omega)] at h3
        have hval : fenceOpen[k - k]? = some '\x60' := by
          have hz : k - k = 0 := by omega
          rw [hz]; decide
        rw [hval] at h3
        interval_cases k
        · exact absurd h3 (by decide)
        · exact absurd h3 (by decide)
        · exact absurd h3 (by decide)
        · exact absurd h3 (by decide)

theorem lazyClose_finds : ∀ (u : List Char), '\n' ∉ u → ∀ post : List Char,
    lazyClose (u ++ '}' :: (closeAfterBrace ++ post)) =
      some (u ++ ['}'], closeAfterBrace ++ post) := by
  intro u
  induction u with
  | nil =>
    intro _ post
    show lazyClose ('}' :: (closeAfterBrace ++ post)) =
      some (['}'], closeAfterBrace ++ post)
    unfold lazyClose
    rw [if_pos ⟨rfl, by rw [stripLit_append_self]; rfl⟩]
  | cons c u ih =>
    intro hnl post
    have hcu : '\n' ∉ u := fun h => hnl (List.mem_cons_of_mem c h)
    show lazyClose (c :: (u ++ '}' :: (closeAfterBrace ++ post))) = _
    unfold lazyClose
    rw [if_neg ?hcond, ih hcu post]
    · rfl
    case hcond =>
      rintro ⟨-, hsome⟩
      have hcb : closeAfterBrace = '\n' :: "\x60\x60\x60".data := by decide
      have hnone : stripLit closeAfterBrace
          (u ++ '}' :: (closeAfterBrace ++ post)) = none := by
        cases u with
        | nil =>
          rw [hcb]
          exact stripLit_ne_head _ _ (by decide)
        | cons d u2 =>
          have hd : d ≠ '\n' := by
            intro he
            exact hnl (by rw [← he] at hnl ⊢; exact List.mem_cons_of_mem c (by rw [he]; exact List.mem_cons_self '\n' u2))
          rw [hcb, List.cons_append]
          exact stripLit_ne_head _ _ hd
      rw [hnone] at hsome
      exact absurd hsome (by decide)

theorem hasJsonFence_cons {c : Char} {pre : List Char}
    (h : hasJsonFence (c :: pre) = false) :
    (stripCI fenceOpen (c :: pre)).isSome = false ∧ hasJsonFence pre = false := by
  have : ((stripCI fenceOpen (c :: pre)).isSome || hasJsonFence pre) = false := h
  exact ⟨by cases hb : (stripCI fenceOpen (c :: pre)).isSome <;> simp_all,
    by cases hb : hasJsonFence pre <;> simp_all⟩

/-- The leftmost match of the pattern in fence-free prose followed by a
genuine fenced block is the genuine block. -/
theorem findFirstMatch_prose (name : List Char) : ∀ (pre : List Char),
    hasJsonFence pre = false → ∀ (u g : List Char),
    matchGroupAt name (fenceOpen ++ u) = some g →
    findFirstMatch name (pre ++ (fenceOpen ++ u)) = some g := by
  intro pre
  induction pre with
  | nil =>
    intro _ u g hm
    show findFirstMatch name (fenceOpen ++ u) = some g
    cases hfu : fenceOpen ++ u with
    | nil => simp [fenceOpen] at hfu
    | cons c rest =>
      rw [hfu] at hm
      unfold findFirstMatch
      rw [hm]
  | cons c pre ih =>
    intro hpre u g hm
    obtain ⟨h1, h2⟩ := hasJsonFence_cons hpre
    have hnone : matchGroupAt name ((c :: pre) ++ (fenceOpen ++ u)) = none := by
      unfold matchGroupAt
      rw [stripCI_fence_straddle (c :: pre) (by simp) u h1]
    show findFirstMatch name (c :: (pre ++ (fenceOpen ++ u))) = some g
    unfold findFirstMatch
    rw [show c :: (pre ++ (fenceOpen ++ u)) = (c :: pre) ++ (fenceOpen ++ u) from rfl,
      hnone]
    exact ih h2 u g hm

theorem serializeFields_no_newline (fs : List (List Char × Json)) :
    '\n' ∉ serializeFields fs :=
  (serialize_no_newline_bundle (fsize fs)).2.2 fs le_rfl

/-- At the genuine block, the scanner captures exactly the serialized
object. -/
theorem matchGroupAt_genuine (name : List Char)
    (hname : ∀ c ∈ name, c ≠ '"' ∧ c ≠ '\\' ∧ 32 ≤ c.toNat)
    (w : Json) (fs : List (List Char × Json)) (post : List Char) :
    matchGroupAt name
      (fenceOpen ++
        (serializeJson (Json.obj ((name, w) :: fs)) ++ (closeAfterBrace ++ post))) =
      some (serializeJson (Json.obj ((name, w) :: fs))) := by
  have hesc : escapeString name = name := escapeString_id hname
  have hser : serializeJson (Json.obj ((name, w) :: fs)) ++ (closeAfterBrace ++ post) =
      '{' :: ('"' :: (name ++ '"' :: ':' ::
        (serializeJson w ++
          (match fs with
           | [] => '}' :: (closeAfterBrace ++ post)
           | f2 :: fs2 => ',' :: (serializeFields (f2 :: fs2) ++
               ('}' :: (closeAfterBrace ++ post))))))) := by
    show ('{' :: (serializeFields ((name, w) :: fs) ++ ['}'])) ++
      (closeAfterBrace ++ post) = _
    rw [List.cons_append, List.append_assoc,
      show (['}'] : List Char) ++ (closeAfterBrace ++ post) =
        '}' :: (closeAfterBrace ++ post) from rfl,
      serializeFields_cons_eq name w fs ('}' :: (closeAfterBrace ++ post)), hesc]
  unfold matchGroupAt
  rw [stripCI_append_self, hser]
  dsimp only
  rw [if_pos rfl]
  simp only [List.dropWhile_cons, List.takeWhile_cons,
    show isJsSpaceChar '"' = false from by decide, Bool.false_eq_true, if_false]
  cases fs with
  | nil =>
    dsimp only
    have hsplit : '"' :: (name ++ '"' :: ':' ::
        (serializeJson w ++ '}' :: (closeAfterBrace ++ post))) =
        ('"' :: (name ++ ['"'])) ++ (':' ::
          (serializeJson w ++ '}' :: (closeAfterBrace ++ post))) := by
      simp [List.append_assoc]
    rw [hsplit, stripCI_append_self]
    dsimp only
    rw [List.take_left'
      (by simp : ('"' :: (name ++ ['"'])).length = name.length + 2)]
    have hnl : '\n' ∉ ':' :: serializeJson w := by
      intro hm
      rcases List.mem_cons.mp hm with h | h
      · exact absurd h (by decide)
      · exact serializeJson_no_newline w h
    rw [show ':' :: (serializeJson w ++ '}' :: (closeAfterBrace ++ post)) =
        (':' :: serializeJson w) ++ '}' :: (closeAfterBrace ++ post) from by simp,
      lazyClose_finds (':' :: serializeJson w) hnl post]
    dsimp only
    rw [show serializeJson (Json.obj [(name, w)]) =
      '{' :: (('"' :: (escapeString name ++ '"' :: ':' :: serializeJson w)) ++ ['}']) from rfl,
      hesc]
    simp [List.append_assoc]
  | cons f2 fs2 =>
    dsimp only
    have hsplit : '"' :: (name ++ '"' :: ':' ::
        (serializeJson w ++ ',' :: (serializeFields (f2 :: fs2) ++
          ('}' :: (closeAfterBrace ++ post))))) =
        ('"' :: (name ++ ['"'])) ++ (':' ::
          (serializeJson w ++ ',' :: (serializeFields (f2 :: fs2) ++
            ('}' :: (closeAfterBrace ++ post))))) := by
      simp [List.append_assoc]
    rw [hsplit, stripCI_append_self]
    dsimp only
    rw [List.take_left'
      (by simp : ('"' :: (name ++ ['"'])).length = name.length + 2)]
    have hnl : '\n' ∉ ':' :: (serializeJson w ++ ',' :: serializeFields (f2 :: fs2)) := by
      intro hm
      rcases List.mem_cons.mp hm with h | h
      · exact absurd h (by decide)
      · rcases List.mem_append.mp h with h | h
        · exact serializeJson_no_newline w h
        · rcases List.mem_cons.mp h with h | h
          · exact absurd h (by decide)
          · exact serializeFields_no_newline (f2 :: fs2) h
    rw [show ':' :: (serializeJson w ++ ',' :: (serializeFields (f2 :: fs2) ++
        ('}' :: (closeAfterBrace ++ post)))) =
        (':' :: (serializeJson w ++ ',' :: serializeFields (f2 :: fs2))) ++
          '}' :: (closeAfterBrace ++ post) from by simp,
      lazyClose_finds _ hnl post]
    dsimp only
    rw [show serializeJson (Json.obj ((name, w) :: f2 :: fs2)) =
      '{' :: ((('"' :: (escapeString name ++ '"' :: ':' :: serializeJson w)) ++
        ',' :: serializeFields (f2 :: fs2)) ++ ['}']) from rfl, hesc]
    simp [List.append_assoc]

/-! ** Claim C4 ** -/

/-- Claim C4 is false as stated: extraction is a leftmost regex match,
so prose that itself contains a json fence opener followed by an object
header captures a span that straddles the fake opener and the genuine
block.  Here the object `(differences : [])` is serialized compactly
into a properly fenced block, but with the adversarial prose ahead of it
extraction returns a malformed-payload failure instead of recovering the
object. -/
theorem C4_counterexample_adversarial_prose :
    serializeJson (Json.obj [("differences".data, Json.arr [])]) =
      ("\x7b\"differences\":[]\x7d").data ∧
    extractJsonObject
      (c4Pre ++ "```json\n\x7b\"differences\":[]\x7d\n```") "differences" =
      .error ⟨"differences",
        c4Pre ++ "```json\n\x7b\"differences\":[]\x7d\n```", .parseFailure⟩ :=
  ⟨rfl, rfl⟩

/-- Corrected form of C4: for any object whose first key is the
requested name ("processed_dimensions" or "differences"), serialized
compactly into a fenced json block, extraction recovers exactly the
pre-serialization structure — provided the prose before the block
contains no json fence opener of its own.  The prose after the block is
unconstrained, and if it contains further candidate blocks the first
(the genuine one) wins. -/
theorem C4_amended_roundtrip (name : String) (w : Json)
    (fs : List (List Char × Json)) (pre post : String)
    (hname : name = "processed_dimensions" ∨ name = "differences")
    (hpre : hasJsonFence pre.data = false) :
    extractJsonObject
      (pre ++ ("```json\n" ++
        (String.mk (serializeJson (Json.obj ((name.data, w) :: fs))) ++
          ("\n```" ++ post))))
      name = .ok (Json.obj ((name.data, w) :: fs)) := by
  have hplain : ∀ c ∈ name.data, c ≠ '"' ∧ c ≠ '\\' ∧ 32 ≤ c.toNat := by
    rcases hname with rfl | rfl <;> decide
  unfold extractJsonObject
  have hdata : (pre ++ ("```json\n" ++
      (String.mk (serializeJson (Json.obj ((name.data, w) :: fs))) ++
        ("\n```" ++ post)))).data =
      pre.data ++ (fenceOpen ++
        (serializeJson (Json.obj ((name.data, w) :: fs)) ++
          (closeAfterBrace ++ post.data))) := rfl
  rw [hdata]
  rw [findFirstMatch_prose name.data pre.data hpre _ _
    (matchGroupAt_genuine name.data hplain w fs post.data)]
  dsimp only
  rw [parseJson_serializeJson]

/-- Witness for the corrected C4: the round-trip at the name
"differences", the document `(differences : [])`, fence-free prose
before and arbitrary prose after. -/
theorem C4_amended_roundtrip_witness :
    ("differences" = "processed_dimensions" ∨ "differences" = "differences") ∧
    hasJsonFence ("Analysis follows.\n".data) = false ∧
    extractJsonObject
      ("Analysis follows.\n" ++ ("```json\n" ++
        (String.mk (serializeJson (Json.obj [("differences".data, Json.arr [])])) ++
          ("\n```" ++ "\nDone."))))
      "differences" = .ok (Json.obj [("differences".data, Json.arr [])]) :=
  ⟨Or.inr rfl, by decide,
    C4_amended_roundtrip "differences" (Json.arr []) [] "Analysis follows.\n" "\nDone."
      (Or.inr rfl) (by decide)⟩
